import Mathlib

/-!
Shallow embedding of the httprunner template-resolution engine
(`httprunner/parser.py`): notation scanner, string resolver, structural
walker, dependency resolver, function resolver, argument parser and
parameter expander, together with theorems settling the frozen claims.
-/

namespace HR

/-- Python value model (the `Content` data kind of the spec).  Strings may
embed `$` notations; floats are not modelled (no claim mentions them).
`setv` models a Python `set` (its iteration order is kept as a list). -/
inductive Content where
  | null
  | bool (b : Bool)
  | int (n : Int)
  | str (s : String)
  | list (xs : List Content)
  | tuple (xs : List Content)
  | setv (xs : List Content)
  | dict (kvs : List (Content × Content))

mutual

/-- Structural equality of `Content` values (Python `==` on the modelled
kinds); written by hand because automatic deriving does not support the
nested lists. -/
def beqC : Content → Content → Bool
  | .null, .null => true
  | .bool a, .bool b => a == b
  | .int a, .int b => a == b
  | .str a, .str b => a == b
  | .list xs, .list ys => beqL xs ys
  | .tuple xs, .tuple ys => beqL xs ys
  | .setv xs, .setv ys => beqL xs ys
  | .dict xs, .dict ys => beqP xs ys
  | _, _ => false

/-- Equality of `Content` lists, elementwise. -/
def beqL : List Content → List Content → Bool
  | [], [] => true
  | x :: xs, y :: ys => beqC x y && beqL xs ys
  | _, _ => false

/-- Equality of `Content` pair lists, elementwise. -/
def beqP : List (Content × Content) → List (Content × Content) → Bool
  | [], [] => true
  | (k, v) :: xs, (k', v') :: ys => beqC k k' && beqC v v' && beqP xs ys
  | _, _ => false

end

/-- Ascii word character, modelling the regex class `\w` on the inputs the
claims use (the Python regexes run in unicode mode; the engine's own names
are ascii). -/
def isWordChar (c : Char) : Bool := c.isAlphanum || c == '_'

/-- Python `\s` whitespace class. -/
def isPySpace (c : Char) : Bool :=
  c == ' ' || c == '\t' || c == '\n' || c == '\r' || c == '\x0b' || c == '\x0c'

/-- Character class of the function-argument part of
`function_regex_compile`: dollar, word characters, dot, dash, slash,
whitespace, equals sign and comma. -/
def isArgChar (c : Char) : Bool :=
  c == '$' || isWordChar c || c == '.' || c == '-' || c == '/' ||
  isPySpace c || c == '=' || c == ','

/-- Space or tab, the characters `parse_data` strips from raw strings. -/
def isSpaceTab (c : Char) : Bool := c == ' ' || c == '\t'

/-- Python `str.strip(chars)` on a character list: drop the given class from
both ends. -/
def pyStripBoth (p : Char → Bool) (l : List Char) : List Char :=
  ((l.dropWhile p).reverse.dropWhile p).reverse

/-- Python `raw_data.strip(" \t")` as used by `parse_data`. -/
def pyStrip (s : String) : String := ⟨pyStripBoth isSpaceTab s.toList⟩

/-- Python `s.strip()` (all whitespace) as used by `parse_function_params`. -/
def pyStripWs (s : String) : String := ⟨pyStripBoth isPySpace s.toList⟩

/-- Python `s.split(sep)` for a one-character separator: n separators give
n+1 (possibly empty) parts. -/
def splitChar (sep : Char) : List Char → List (List Char)
  | [] => [[]]
  | c :: rest =>
    if c = sep then [] :: splitChar sep rest
    else
      match splitChar sep rest with
      | p :: ps => (c :: p) :: ps
      | [] => [[c]]

/-- Payload of `exceptions.VariableNotFound`.  The source raises it with a
formatted message (`get_mapping_variable`), with the offending variable name
(self-reference check) or with the list of missing names (undefined-reference
check); the payload is modelled structurally instead of as formatted text. -/
inductive VnfInfo where
  | lookupMiss (name : String)
  | selfRef (name : String)
  | undefined (names : List String)
deriving DecidableEq

/-- Failure kinds surfaced by the engine.  The first three are the
httprunner exception classes used by `parser.py`; `valueError`, `keyError`
and `typeError` model the corresponding Python built-in exceptions that can
escape; `embedFuelOut` is not a Python exception: it models the embedding's
recursion-depth cutoff for nested notation resolution. -/
inductive PyErr where
  | variableNotFound (info : VnfInfo)
  | functionNotFound (name : String)
  | paramsError (msg : String)
  | valueError (msg : String)
  | keyError (key : String)
  | typeError (msg : String)
  | embedFuelOut
deriving DecidableEq

/-- Error class test used by the claims: is the exception a
`VariableNotFound` (whatever its payload)? -/
def isVariableNotFound : PyErr → Bool
  | .variableNotFound _ => true
  | _ => false

/-- Variables mapping: ordered name-to-value table (a Python dict in
insertion order, keys unique). -/
abbrev VarMap := List (String × Content)

/-- One expanded parameter record (name-to-value mapping). -/
abbrev PRec := List (String × Content)

/-- Opaque user callable: positional arguments and keyword arguments to a
result; it may raise (spec: callables are opaque, arity and behavior unknown
to the engine). -/
abbrev PyFunc := List Content → List (String × Content) → Except PyErr Content

/-- Python dict assignment `d[k] = v` on an insertion-ordered pair list: an
existing equal key keeps its position (and stored key object) and gets the
new value; a new key is appended. -/
def pyDictInsert {κ ν : Type} (beq : κ → κ → Bool) (d : List (κ × ν))
    (k : κ) (v : ν) : List (κ × ν) :=
  if d.any (fun p => beq p.1 k) then
    d.map (fun p => if beq p.1 k then (p.1, v) else p)
  else d ++ [(k, v)]

/-- Dict assignment for string-keyed records. -/
def recInsert (d : List (String × Content)) (k : String) (v : Content) :
    List (String × Content) :=
  pyDictInsert (fun a b => a == b) d k v

mutual

/-- Python hashability of a value: `None`, booleans, integers and strings
are hashable, a tuple is hashable exactly when all its components are, and
lists, sets and dicts are unhashable. -/
def isHashable : Content → Bool
  | .null => true
  | .bool _ => true
  | .int _ => true
  | .str _ => true
  | .tuple xs => isHashableL xs
  | _ => false

/-- Componentwise hashability of a tuple. -/
def isHashableL : List Content → Bool
  | [] => true
  | x :: xs => isHashable x && isHashableL xs

end

/-- Dict assignment for `Content`-keyed dicts (`parse_data`'s rebuild):
Python's `parsed_data[parsed_key] = parsed_value` hashes the key first and
raises `TypeError` when the resolved key is unhashable (a list, set or
dict). -/
def dictInsertC (d : List (Content × Content)) (k v : Content) :
    Except PyErr (List (Content × Content)) :=
  if isHashable k then .ok (pyDictInsert beqC d k v)
  else .error (.typeError "unhashable type")

/-- Python dict lookup for `Content`-keyed dicts. -/
def lookupC (k : Content) : List (Content × Content) → Option Content
  | [] => none
  | (k', v) :: rest => if beqC k' k then some v else lookupC k rest

mutual

/-- Python `str()` of a `Content` value, as used when a resolved sub-value
is concatenated into a partially-notated string.  Collections print their
elements with `repr`; string `repr` is modelled with plain single quotes
(Python's quote-choice and escaping inside `repr` are not modelled; no claim
stringifies a string nested in a collection). -/
def contentStr : Content → String
  | .null => "None"
  | .bool b => if b then "True" else "False"
  | .int n => toString n
  | .str s => s
  | .list xs => "[" ++ reprJoin xs ++ "]"
  | .tuple [] => "()"
  | .tuple [x] => "(" ++ contentRepr x ++ ",)"
  | .tuple (x :: y :: xs) => "(" ++ reprJoin (x :: y :: xs) ++ ")"
  | .setv [] => "set()"
  | .setv (x :: xs) => "\x7b" ++ reprJoin (x :: xs) ++ "\x7d"
  | .dict kvs => "\x7b" ++ reprJoinP kvs ++ "\x7d"
termination_by c => (sizeOf c, 0)

/-- Python `repr()` of a `Content` value (differs from `str()` only on
strings). -/
def contentRepr : Content → String
  | .str s => "\x27" ++ s ++ "\x27"
  | c => contentStr c
termination_by c => (sizeOf c, 1)

/-- Comma-join of element reprs. -/
def reprJoin : List Content → String
  | [] => ""
  | [x] => contentRepr x
  | x :: y :: xs => contentRepr x ++ ", " ++ reprJoin (y :: xs)
termination_by xs => (sizeOf xs, 2)

/-- Comma-join of key-colon-value reprs. -/
def reprJoinP : List (Content × Content) → String
  | [] => ""
  | [(k, v)] => contentRepr k ++ ": " ++ contentRepr v
  | (k, v) :: p :: kvs =>
    contentRepr k ++ ": " ++ contentRepr v ++ ", " ++ reprJoinP (p :: kvs)
termination_by kvs => (sizeOf kvs, 2)

end

/-- Value of a decimal digit run. -/
def digitsVal (l : List Char) : Nat :=
  l.foldl (fun a c => a * 10 + (c.toNat - 48)) 0

/-- Translation of `parse_string_value`: parse a token to a native value if
possible, otherwise keep the original string (which preserves embedded
dollar notations for later resolution).  The source delegates to
`ast.literal_eval`; only the literal forms reachable in function-argument
position are modelled (the argument character class admits no quotes,
brackets or parens): optionally negated decimal integers, `True`, `False`
and `None`.  Python floats, underscores and leading-zero forms are not
modelled (no claim uses them): such tokens stay strings. -/
def parse_string_value (s : String) : Content :=
  let l := s.toList
  if l ≠ [] ∧ l.all Char.isDigit then .int (digitsVal l)
  else
    match l with
    | '-' :: rest =>
      if rest ≠ [] ∧ rest.all Char.isDigit then .int (-(digitsVal rest : Nat))
      else .str s
    | _ =>
      if s = "True" then .bool true
      else if s = "False" then .bool false
      else if s = "None" then .null
      else .str s

/-- Parsed function arguments: positional `args` and keyword `kwargs`, the
`function_meta` dict of the source. -/
structure FuncMeta where
  args : List Content
  kwargs : List (String × Content)

/-- Translation of `parse_function_params`: strip the raw text, return empty
meta for the empty string, else split on commas and classify each stripped
token; a token containing an equals sign is split on it and unpacked into
exactly two parts (`key, value = arg.split("=")`), so two or more equals
signs raise Python's unpacking `ValueError`; other tokens become positional
arguments.  Both keys and values go through `parse_string_value`'s
literal-or-string parsing (keys only via `strip`). -/
def parse_function_params (params : String) : Except PyErr FuncMeta :=
  let params_str := pyStripWs params
  if params_str = "" then .ok ⟨[], []⟩
  else
    (splitChar ',' params_str.toList).foldlM
      (fun meta argL =>
        let arg := pyStripBoth isPySpace argL
        if arg.contains '=' then
          match splitChar '=' arg with
          | [k, v] =>
            .ok { meta with
                  kwargs := recInsert meta.kwargs ⟨pyStripBoth isPySpace k⟩
                    (parse_string_value ⟨pyStripBoth isPySpace v⟩) }
          | _ => .error (.valueError "too many values to unpack")
        else
          .ok { meta with args := meta.args ++ [parse_string_value ⟨arg⟩] })
      ⟨[], []⟩

/-- Collaborator context for function resolution.  `user` is the supplied
`FunctionsMapping`; the other fields model the external collaborators the
source reaches for: `loader.load_csv_file` and `utils.get_os_environ` behind
the fixed aliases, the two upload helpers of `httprunner.ext.uploader`, the
process-wide `loader.load_builtin_functions()` registry, and the Python
`builtins` module, none of which are under `src/` (spec section 6 treats
them as opaque lookup collaborators). -/
structure FuncCtx where
  user : List (String × PyFunc)
  csvLoader : PyFunc
  envLookup : PyFunc
  multipartEncoder : PyFunc
  multipartContentType : PyFunc
  builtinRegistry : List (String × PyFunc)
  pyBuiltins : List (String × PyFunc)

/-- Translation of `get_mapping_variable`: exact-key lookup raising
`VariableNotFound` when absent. -/
def get_mapping_variable (variable_name : String) (variables_mapping : VarMap) :
    Except PyErr Content :=
  match List.lookup variable_name variables_mapping with
  | some v => .ok v
  | none => .error (.variableNotFound (.lookupMiss variable_name))

/-- Translation of `get_mapping_function`: resolve a name through the
layered chain - supplied mapping, fixed built-in aliases, loaded built-in
registry, Python builtins - and raise `FunctionNotFound` when every layer
misses. -/
def get_mapping_function (function_name : String) (fc : FuncCtx) :
    Except PyErr PyFunc :=
  match List.lookup function_name fc.user with
  | some f => .ok f
  | none =>
    if function_name = "parameterize" ∨ function_name = "P" then .ok fc.csvLoader
    else if function_name = "environ" ∨ function_name = "ENV" then .ok fc.envLookup
    else if function_name = "multipart_encoder" then .ok fc.multipartEncoder
    else if function_name = "multipart_content_type" then .ok fc.multipartContentType
    else
      match List.lookup function_name fc.builtinRegistry with
      | some f => .ok f
      | none =>
        match List.lookup function_name fc.pyBuiltins with
        | some f => .ok f
        | none => .error (.functionNotFound function_name)

/-- Position of the next dollar sign (Python `raw_string.index("$", i)`
relative to the scanned suffix), used both for the initial scan position and
for the skip-ahead when no regex matches. -/
def findDollarIdx : List Char → Option Nat
  | [] => none
  | c :: rest => if c = '$' then some 0 else (findDollarIdx rest).map (· + 1)

mutual

/-- Translation of `parse_data`, parameterized by the string resolver `pds`
(the tie to `parse_string` is made in `parse_data` below, where the
embedding's nesting fuel is spent): strings are stripped of spaces and tabs
and resolved; lists, sets and tuples are rebuilt elementwise as lists;
mappings are rebuilt with each key and value resolved; other kinds are
returned unchanged. -/
def parse_dataG (pds : String → Except PyErr Content) :
    Content → Except PyErr Content
  | .str s => pds (pyStrip s)
  | .list xs => do .ok (.list (← parseDataGL pds xs))
  | .tuple xs => do .ok (.list (← parseDataGL pds xs))
  | .setv xs => do .ok (.list (← parseDataGL pds xs))
  | .dict kvs => do .ok (.dict (← parseDataGD pds kvs []))
  | .null => .ok .null
  | .bool b => .ok (.bool b)
  | .int n => .ok (.int n)

/-- Elementwise resolution of a sequence (the list comprehension of
`parse_data`). -/
def parseDataGL (pds : String → Except PyErr Content) :
    List Content → Except PyErr (List Content)
  | [] => .ok []
  | x :: xs => do .ok ((← parse_dataG pds x) :: (← parseDataGL pds xs))

/-- Iteration of `parse_data`'s mapping branch over the items: each item's
key and value are resolved in order (key first) and assigned into the fresh
dict being built, the assignment raising `TypeError` when the resolved key
is unhashable (a key collision after resolution overwrites the earlier
value, keeping the first position, as Python dicts do). -/
def parseDataGD (pds : String → Except PyErr Content) :
    List (Content × Content) → List (Content × Content) →
      Except PyErr (List (Content × Content))
  | [], parsed_data => .ok parsed_data
  | (k, v) :: kvs, parsed_data =>
    match parse_dataG pds k with
    | .error e => .error e
    | .ok parsed_key =>
      match parse_dataG pds v with
      | .error e => .error e
      | .ok parsed_value =>
        match dictInsertC parsed_data parsed_key parsed_value with
        | .error e => .error e
        | .ok parsed_data2 => parseDataGD pds kvs parsed_data2

end

/-- Keyword-argument resolution of `parse_string`'s function branch:
`parse_data` is applied to the kwargs dict, which resolves keys as well as
values; Python then requires keyword names to be strings when unpacking
`**parsed_kwargs` (the non-string and non-dict arms model the `TypeError`
Python would raise; `parse_dataG` on a dict in fact always returns a dict). -/
def parseKwargs (pds : String → Except PyErr Content)
    (kwargs : List (String × Content)) :
    Except PyErr (List (String × Content)) := do
  match ← parse_dataG pds (.dict (kwargs.map (fun kv => (.str kv.1, kv.2)))) with
  | .dict kvs =>
    kvs.mapM (fun kv =>
      match kv.1 with
      | .str s => .ok (s, kv.2)
      | _ => .error (.typeError "keywords must be strings"))
  | _ => .error (.typeError "keywords must be strings")

/-- Main scanning loop of `parse_string` over the remaining suffix, with
`acc` the accumulated `parsed_string` and `raw` the whole input (used by the
whole-string checks).  The loop tries, at the current position, the three
regexes in the source's priority order: double dollar, then function call,
then variable; on no match it jumps to the next dollar sign, or appends the
remainder and stops.  The regex alternatives are compiled into list
patterns: both bracketed regex forms read the same greedy word run
(`takeWhile`), so the branching on what follows that run decides which
regex, if any, matches, exactly as the anchored pattern matching does in the
source.  `pdL` and `pdD` resolve the parsed positional and keyword
arguments of a function call (`parse_data` against the same mappings). -/
def psLoopG (pdL : List Content → Except PyErr (List Content))
    (pdD : List (String × Content) → Except PyErr (List (String × Content)))
    (raw : List Char) (vm : VarMap) (fc : FuncCtx) :
    List Char → List Char → Except PyErr Content
  | [], acc => .ok (.str ⟨acc⟩)
  | '$' :: '$' :: rest, acc =>
    psLoopG pdL pdD raw vm fc rest (acc ++ ['$'])
  | '$' :: '{' :: rest, acc =>
    let w := rest.takeWhile isWordChar
    match hr : rest.dropWhile isWordChar with
    | '(' :: r1 =>
      if w = [] then
        match findDollarIdx ('{' :: rest) with
        | some j =>
          psLoopG pdL pdD raw vm fc (('{' :: rest).drop j)
            (acc ++ '$' :: ('{' :: rest).take j)
        | none => .ok (.str ⟨acc ++ '$' :: '{' :: rest⟩)
      else
        let args := r1.takeWhile isArgChar
        match hr1 : r1.dropWhile isArgChar with
        | ')' :: '}' :: tail =>
          match get_mapping_function ⟨w⟩ fc with
          | .error e => .error e
          | .ok f =>
            match parse_function_params ⟨args⟩ with
            | .error e => .error e
            | .ok meta =>
              match pdL meta.args with
              | .error e => .error e
              | .ok parsed_args =>
                match pdD meta.kwargs with
                | .error e => .error e
                | .ok parsed_kwargs =>
                  match f parsed_args parsed_kwargs with
                  | .error e => .error e
                  | .ok func_eval_value =>
                    if '$' :: '{' :: w ++ '(' :: args ++ [')', '}'] = raw then
                      .ok func_eval_value
                    else
                      psLoopG pdL pdD raw vm fc tail
                        (acc ++ (contentStr func_eval_value).toList)
        | _ =>
          match findDollarIdx ('{' :: rest) with
          | some j =>
            psLoopG pdL pdD raw vm fc (('{' :: rest).drop j)
              (acc ++ '$' :: ('{' :: rest).take j)
          | none => .ok (.str ⟨acc ++ '$' :: '{' :: rest⟩)
    | '}' :: tail =>
      if w = [] then
        match findDollarIdx ('{' :: rest) with
        | some j =>
          psLoopG pdL pdD raw vm fc (('{' :: rest).drop j)
            (acc ++ '$' :: ('{' :: rest).take j)
        | none => .ok (.str ⟨acc ++ '$' :: '{' :: rest⟩)
      else
        match get_mapping_variable ⟨w⟩ vm with
        | .error e => .error e
        | .ok var_value =>
          if '$' :: w = raw ∨ '$' :: '{' :: w ++ ['}'] = raw then .ok var_value
          else
            psLoopG pdL pdD raw vm fc tail (acc ++ (contentStr var_value).toList)
    | _ =>
      match findDollarIdx ('{' :: rest) with
      | some j =>
        psLoopG pdL pdD raw vm fc (('{' :: rest).drop j)
          (acc ++ '$' :: ('{' :: rest).take j)
      | none => .ok (.str ⟨acc ++ '$' :: '{' :: rest⟩)
  | '$' :: rest, acc =>
    let w := rest.takeWhile isWordChar
    if w = [] then
      match findDollarIdx rest with
      | some j =>
        psLoopG pdL pdD raw vm fc (rest.drop j) (acc ++ '$' :: rest.take j)
      | none => .ok (.str ⟨acc ++ '$' :: rest⟩)
    else
      match get_mapping_variable ⟨w⟩ vm with
      | .error e => .error e
      | .ok var_value =>
        if '$' :: w = raw ∨ '$' :: '{' :: w ++ ['}'] = raw then .ok var_value
        else
          psLoopG pdL pdD raw vm fc (rest.dropWhile isWordChar)
            (acc ++ (contentStr var_value).toList)
  | c :: rest, acc =>
    match findDollarIdx rest with
    | some j =>
      psLoopG pdL pdD raw vm fc (rest.drop j) (acc ++ c :: rest.take j)
    | none => .ok (.str ⟨acc ++ c :: rest⟩)
termination_by s a => s.length
decreasing_by
all_goals simp_wf
all_goals
  try (have hw := congrArg List.length
        (List.takeWhile_append_dropWhile isWordChar rest))
all_goals
  try (have ha := congrArg List.length
        (List.takeWhile_append_dropWhile isArgChar r1))
all_goals
  try rw [hr] at hw
all_goals
  try rw [hr1] at ha
all_goals
  simp only [List.length_append, List.length_cons, List.length_drop,
    List.length_take] at *
all_goals
  omega

/-- Translation of `parse_string`: resolve one raw string against the
variables and functions mappings.  When the string holds no dollar sign it
is returned as is; otherwise scanning starts at the first dollar, with the
text before it as the initial `parsed_string`.  `fuel` is the embedding's
cutoff for the depth of function-argument resolution (the source recurses
through `parse_data` there); every claim proved below either never enters
that branch or uses an explicitly sufficient fuel. -/
def parse_string (fuel : Nat) (raw_string : String) (variables_mapping : VarMap)
    (fc : FuncCtx) : Except PyErr Content :=
  match fuel with
  | 0 => .error .embedFuelOut
  | fuel + 1 =>
    let l := raw_string.toList
    match findDollarIdx l with
    | none => .ok (.str raw_string)
    | some i =>
      psLoopG (parseDataGL (fun s => parse_string fuel s variables_mapping fc))
        (parseKwargs (fun s => parse_string fuel s variables_mapping fc))
        l variables_mapping fc (l.drop i) (l.take i)

/-- Translation of `parse_data` with the string resolver tied to
`parse_string` at the given fuel (the source's default empty mappings are
supplied explicitly by callers). -/
def parse_data (fuel : Nat) (raw_data : Content) (variables_mapping : VarMap)
    (fc : FuncCtx) : Except PyErr Content :=
  parse_dataG (fun s => parse_string fuel s variables_mapping fc) raw_data

/-- Scanning loop of `regex_findall_variables`: collect variable names left
to right with the double-dollar escape taking priority over the variable
regex (no function priority here, so variable names inside function-call
arguments are collected), skipping to the next dollar when neither matches. -/
def rfvLoop : List Char → List String
  | [] => []
  | '$' :: '$' :: rest => rfvLoop rest
  | '$' :: '{' :: rest =>
    (match hr : rest.dropWhile isWordChar with
     | '}' :: tail =>
       if rest.takeWhile isWordChar = [] then
         match findDollarIdx ('{' :: rest) with
         | some j => rfvLoop (('{' :: rest).drop j)
         | none => []
       else ⟨rest.takeWhile isWordChar⟩ :: rfvLoop tail
     | _ =>
       match findDollarIdx ('{' :: rest) with
       | some j => rfvLoop (('{' :: rest).drop j)
       | none => [])
  | '$' :: rest =>
    if rest.takeWhile isWordChar = [] then
      match findDollarIdx rest with
      | some j => rfvLoop (rest.drop j)
      | none => []
    else ⟨rest.takeWhile isWordChar⟩ :: rfvLoop (rest.dropWhile isWordChar)
  | _ :: rest =>
    match findDollarIdx rest with
    | some j => rfvLoop (rest.drop j)
    | none => []
termination_by s => s.length
decreasing_by
all_goals simp_wf
all_goals
  try (have hw := congrArg List.length
        (List.takeWhile_append_dropWhile isWordChar rest))
all_goals
  try rw [hr] at hw
all_goals
  simp only [List.length_append, List.length_cons, List.length_drop,
    List.length_take] at *
all_goals
  omega

/-- Translation of `regex_findall_variables`: all variable names referenced
in a string, in occurrence order.  An input without a dollar yields the
empty list at once. -/
def regex_findall_variables (raw_string : String) : List String :=
  match findDollarIdx raw_string.toList with
  | none => []
  | some i => rfvLoop (raw_string.toList.drop i)

mutual

/-- Translation of `extract_variables`: the variable names referenced
anywhere inside a content value - elements of sequences and sets, values
(not keys) of mappings, and strings via `regex_findall_variables`.  The
source returns a Python set; it is modelled as the occurrence list, and the
claims below depend only on membership in it, since a set's iteration order
is unspecified. -/
def extract_variables : Content → List String
  | .str s => regex_findall_variables s
  | .list xs => evJoin xs
  | .tuple xs => evJoin xs
  | .setv xs => evJoin xs
  | .dict kvs => evJoinP kvs
  | _ => []

/-- Union (as concatenation) of the variables of a sequence's elements. -/
def evJoin : List Content → List String
  | [] => []
  | x :: xs => extract_variables x ++ evJoin xs

/-- Union (as concatenation) of the variables of a mapping's values. -/
def evJoinP : List (Content × Content) → List String
  | [] => []
  | (_, v) :: kvs => extract_variables v ++ evJoinP kvs

end

/-- One candidate step of `parse_variables_mapping`'s pass over the names:
skip if already resolved; raise on self-reference; raise with the missing
names when a referenced name is absent from the original mapping; then
attempt resolution against the resolved-so-far table, skipping (for a later
pass) on `VariableNotFound`, propagating any other failure, and recording
the parsed value on success. -/
def processName (variables_mapping : VarMap) (fc : FuncCtx) (fuel : Nat)
    (parsed_variables : VarMap) (var_name : String) (var_value : Content) :
    Except PyErr VarMap :=
  if (List.lookup var_name parsed_variables).isSome then .ok parsed_variables
  else
    let vars := extract_variables var_value
    if var_name ∈ vars then .error (.variableNotFound (.selfRef var_name))
    else
      let not_defined_variables :=
        vars.filter (fun v => (List.lookup v variables_mapping).isNone)
      if not_defined_variables ≠ [] then
        .error (.variableNotFound (.undefined not_defined_variables))
      else
        match parse_data fuel var_value parsed_variables fc with
        | .error (.variableNotFound _) => .ok parsed_variables
        | .error e => .error e
        | .ok parsed_value =>
          .ok (recInsert parsed_variables var_name parsed_value)

/-- One full pass of `parse_variables_mapping`'s `for` loop over all entries
of the mapping, in insertion order. -/
def passAux (variables_mapping : VarMap) (fc : FuncCtx) (fuel : Nat) :
    List (String × Content) → VarMap → Except PyErr VarMap
  | [], parsed => .ok parsed
  | (n, v) :: rest, parsed => do
    passAux variables_mapping fc fuel rest
      (← processName variables_mapping fc fuel parsed n v)

/-- The `while` loop of `parse_variables_mapping`, indexed by the number of
full passes still allowed.  The source has no such bound: `.ok none` means
the loop is still running after that many passes, so a result of `.ok none`
for every budget models non-termination. -/
def pvmLoop (variables_mapping : VarMap) (fc : FuncCtx) (fuel : Nat) :
    Nat → VarMap → Except PyErr (Option VarMap)
  | 0, _ => .ok none
  | passes + 1, parsed =>
    if parsed.length = variables_mapping.length then .ok (some parsed)
    else do
      pvmLoop variables_mapping fc fuel passes
        (← passAux variables_mapping fc fuel variables_mapping parsed)

/-- Translation of `parse_variables_mapping`: fixed-point iteration from the
empty resolved table.  `passes` bounds the number of loop iterations
observed (the source loops unboundedly); `fuel` is the string-resolution
nesting fuel of `parse_data`. -/
def parse_variables_mapping (passes fuel : Nat) (variables_mapping : VarMap)
    (fc : FuncCtx) : Except PyErr (Option VarMap) :=
  pvmLoop variables_mapping fc fuel passes []

/-- Wrapping of a literal parameter element: sequences and tuples are used
as is, any other value becomes a one-element sequence. -/
def wrapItem : Content → List Content
  | .list xs => xs
  | .tuple xs => xs
  | c => [c]

/-- Python `dict(zip(names, values))`: truncating zip, later duplicate names
overwrite. -/
def dictOfZip (names : List String) (vals : List Content) : PRec :=
  (names.zip vals).foldl (fun d kv => recInsert d kv.1 kv.2) []

/-- Python `merged.update(other)` on a copy of `a`: fold `b`'s pairs into
`a`. -/
def mergeRec (a b : PRec) : PRec :=
  b.foldl (fun d kv => recInsert d kv.1 kv.2) a

/-- Modelled from the spec: `utils.gen_cartesian_product` is code of this
repository that is not under `src/`.  Spec section 4.7: compute the
cartesian product across all per-spec record lists, merging each
combination's records into a single flat record, with product order
following the earliest-declared parameter varying slowest. -/
def gen_cartesian_product : List (List PRec) → List PRec
  | [] => [[]]
  | l :: rest =>
    l.flatMap (fun r => (gen_cartesian_product rest).map (fun t => mergeRec r t))

/-- Subset selection of the mapping-element branch of `parse_parameters`
(the dict comprehension over the field names): a missing field name raises
Python's `KeyError`. -/
def subsetByNames (parameter_item : List (Content × Content))
    (names : List String) : Except PyErr PRec :=
  names.foldlM
    (fun d key =>
      match lookupC (.str key) parameter_item with
      | some v => .ok (recInsert d key v)
      | none => .error (.keyError key))
    []

/-- Element handling of the string-source branch of `parse_parameters`:
mapping elements are filtered to the field names; sequence and tuple
elements are zipped against the field names, with a `ParamsError` on length
mismatch; any other element is the single field's value when there is
exactly one field name, and a `ParamsError` otherwise. -/
def elemToRec (parameter_name_list : List String) :
    Content → Except PyErr PRec
  | .dict kvs => subsetByNames kvs parameter_name_list
  | .list xs =>
    if parameter_name_list.length = xs.length then
      .ok (dictOfZip parameter_name_list xs)
    else .error (.paramsError "parameter names length are not equal to value length.")
  | .tuple xs =>
    if parameter_name_list.length = xs.length then
      .ok (dictOfZip parameter_name_list xs)
    else .error (.paramsError "parameter names length are not equal to value length.")
  | item =>
    if parameter_name_list.length = 1 then
      .ok [(parameter_name_list.headD "", item)]
    else .error (.paramsError "Invalid parameter names and values")

/-- Per-entry record-list construction of `parse_parameters`: split the
parameter name on dashes; a literal sequence source zips each (wrapped)
element against the field names; a string source is resolved with empty
variables against the externally supplied functions and must yield a
sequence, whose elements go through `elemToRec`; any other source kind is a
`ParamsError`. -/
def buildOne (fuel : Nat) (fc : FuncCtx) (parameter_name : String)
    (parameter_content : Content) : Except PyErr (List PRec) :=
  let parameter_name_list :=
    (splitChar '-' parameter_name.toList).map (fun l => (⟨l⟩ : String))
  match parameter_content with
  | .list parameter_content_list =>
    .ok (parameter_content_list.map
      (fun item => dictOfZip parameter_name_list (wrapItem item)))
  | .str s => do
    match ← parse_data fuel (.str s) [] fc with
    | .list parsed => parsed.mapM (elemToRec parameter_name_list)
    | _ => .error (.paramsError "parameters content should be in List type")
  | _ => .error (.paramsError "parameter content should be List or Text")

/-- Translation of `parse_parameters`: build one record list per parameter
entry and return their cartesian product.  The functions mapping comes from
`loader.load_project_meta` in the source (not under `src/`; spec section 4.7
calls it an externally supplied function mapping), so it is a parameter
here. -/
def parse_parameters (fuel : Nat) (parameters : List (String × Content))
    (fc : FuncCtx) : Except PyErr (List PRec) := do
  let parsed_parameters_list ←
    parameters.mapM (fun p => buildOne fuel fc p.1 p.2)
  .ok (gen_cartesian_product parsed_parameters_list)

/-- State-threaded reading of `get_mapping_variable`, for the frame claims:
the caller's tables (variables mapping, function context) are explicit state
flowing through every translated statement, so that "the engine never
mutates the supplied mappings" is the provable statement that the state
comes back unchanged.  Lookups read the state; no branch writes it. -/
def get_mapping_variableS (variable_name : String) (st : VarMap × FuncCtx) :
    Except PyErr Content × (VarMap × FuncCtx) :=
  match List.lookup variable_name st.1 with
  | some v => (.ok v, st)
  | none => (.error (.variableNotFound (.lookupMiss variable_name)), st)

/-- State-threaded reading of `get_mapping_function` (layered lookup chain,
no branch writes the state). -/
def get_mapping_functionS (function_name : String) (st : VarMap × FuncCtx) :
    Except PyErr PyFunc × (VarMap × FuncCtx) :=
  match List.lookup function_name st.2.user with
  | some f => (.ok f, st)
  | none =>
    if function_name = "parameterize" ∨ function_name = "P" then
      (.ok st.2.csvLoader, st)
    else if function_name = "environ" ∨ function_name = "ENV" then
      (.ok st.2.envLookup, st)
    else if function_name = "multipart_encoder" then
      (.ok st.2.multipartEncoder, st)
    else if function_name = "multipart_content_type" then
      (.ok st.2.multipartContentType, st)
    else
      match List.lookup function_name st.2.builtinRegistry with
      | some f => (.ok f, st)
      | none =>
        match List.lookup function_name st.2.pyBuiltins with
        | some f => (.ok f, st)
        | none => (.error (.functionNotFound function_name), st)

mutual

/-- State-threaded reading of `parse_data`'s structural walk (see
`get_mapping_variableS`): every recursive call passes the current tables on
and hands back the tables it received from its callee. -/
def parse_dataGS
    (pdsS : String → VarMap × FuncCtx →
      Except PyErr Content × (VarMap × FuncCtx)) :
    Content → VarMap × FuncCtx → Except PyErr Content × (VarMap × FuncCtx)
  | .str s, st => pdsS (pyStrip s) st
  | .list xs, st =>
    (match parseDataGLS pdsS xs st with
     | (.error e, st1) => (.error e, st1)
     | (.ok ys, st1) => (.ok (.list ys), st1))
  | .tuple xs, st =>
    (match parseDataGLS pdsS xs st with
     | (.error e, st1) => (.error e, st1)
     | (.ok ys, st1) => (.ok (.list ys), st1))
  | .setv xs, st =>
    (match parseDataGLS pdsS xs st with
     | (.error e, st1) => (.error e, st1)
     | (.ok ys, st1) => (.ok (.list ys), st1))
  | .dict kvs, st =>
    (match parseDataGDS pdsS kvs [] st with
     | (.error e, st1) => (.error e, st1)
     | (.ok ps, st1) => (.ok (.dict ps), st1))
  | .null, st => (.ok .null, st)
  | .bool b, st => (.ok (.bool b), st)
  | .int n, st => (.ok (.int n), st)

/-- State-threaded elementwise resolution of a sequence. -/
def parseDataGLS
    (pdsS : String → VarMap × FuncCtx →
      Except PyErr Content × (VarMap × FuncCtx)) :
    List Content → VarMap × FuncCtx →
      Except PyErr (List Content) × (VarMap × FuncCtx)
  | [], st => (.ok [], st)
  | x :: xs, st =>
    (match parse_dataGS pdsS x st with
     | (.error e, st1) => (.error e, st1)
     | (.ok y, st1) =>
       match parseDataGLS pdsS xs st1 with
       | (.error e, st2) => (.error e, st2)
       | (.ok ys, st2) => (.ok (y :: ys), st2))

/-- State-threaded iteration of the mapping branch, with the same
hashability-checked assignment into the dict being built. -/
def parseDataGDS
    (pdsS : String → VarMap × FuncCtx →
      Except PyErr Content × (VarMap × FuncCtx)) :
    List (Content × Content) → List (Content × Content) → VarMap × FuncCtx →
      Except PyErr (List (Content × Content)) × (VarMap × FuncCtx)
  | [], parsed_data, st => (.ok parsed_data, st)
  | (k, v) :: kvs, parsed_data, st =>
    (match parse_dataGS pdsS k st with
     | (.error e, st1) => (.error e, st1)
     | (.ok pk, st1) =>
       match parse_dataGS pdsS v st1 with
       | (.error e, st2) => (.error e, st2)
       | (.ok pv, st2) =>
         match dictInsertC parsed_data pk pv with
         | .error e => (.error e, st2)
         | .ok parsed_data2 => parseDataGDS pdsS kvs parsed_data2 st2)

end

/-- State-threaded keyword-argument resolution. -/
def parseKwargsS
    (pdsS : String → VarMap × FuncCtx →
      Except PyErr Content × (VarMap × FuncCtx))
    (kwargs : List (String × Content)) (st : VarMap × FuncCtx) :
    Except PyErr (List (String × Content)) × (VarMap × FuncCtx) :=
  match parse_dataGS pdsS
      (.dict (kwargs.map (fun kv => (.str kv.1, kv.2)))) st with
  | (.error e, st1) => (.error e, st1)
  | (.ok (.dict kvs), st1) =>
    (kvs.mapM (fun kv =>
      match kv.1 with
      | .str s => .ok (s, kv.2)
      | _ => .error (.typeError "keywords must be strings")), st1)
  | (.ok _, st1) => (.error (.typeError "keywords must be strings"), st1)

/-- State-threaded reading of `parse_string`'s scanning loop (see
`get_mapping_variableS`): the variable branch reads the threaded variables
table, the function branch reads the threaded function context and threads
the state through the argument resolution, and every continuation carries
the state it was handed back. -/
def psLoopS
    (pdLS : List Content → VarMap × FuncCtx →
      Except PyErr (List Content) × (VarMap × FuncCtx))
    (pdDS : List (String × Content) → VarMap × FuncCtx →
      Except PyErr (List (String × Content)) × (VarMap × FuncCtx))
    (raw : List Char) :
    List Char → List Char → VarMap × FuncCtx →
      Except PyErr Content × (VarMap × FuncCtx)
  | [], acc, st => (.ok (.str ⟨acc⟩), st)
  | '$' :: '$' :: rest, acc, st =>
    psLoopS pdLS pdDS raw rest (acc ++ ['$']) st
  | '$' :: '{' :: rest, acc, st =>
    let w := rest.takeWhile isWordChar
    match hr : rest.dropWhile isWordChar with
    | '(' :: r1 =>
      if w = [] then
        match findDollarIdx ('{' :: rest) with
        | some j =>
          psLoopS pdLS pdDS raw (('{' :: rest).drop j)
            (acc ++ '$' :: ('{' :: rest).take j) st
        | none => (.ok (.str ⟨acc ++ '$' :: '{' :: rest⟩), st)
      else
        let args := r1.takeWhile isArgChar
        match hr1 : r1.dropWhile isArgChar with
        | ')' :: '}' :: tail =>
          (match get_mapping_functionS ⟨w⟩ st with
           | (.error e, st1) => (.error e, st1)
           | (.ok f, st1) =>
             match parse_function_params ⟨args⟩ with
             | .error e => (.error e, st1)
             | .ok meta =>
               match pdLS meta.args st1 with
               | (.error e, st2) => (.error e, st2)
               | (.ok parsed_args, st2) =>
                 match pdDS meta.kwargs st2 with
                 | (.error e, st3) => (.error e, st3)
                 | (.ok parsed_kwargs, st3) =>
                   match f parsed_args parsed_kwargs with
                   | .error e => (.error e, st3)
                   | .ok func_eval_value =>
                     if '$' :: '{' :: w ++ '(' :: args ++ [')', '}'] = raw then
                       (.ok func_eval_value, st3)
                     else
                       psLoopS pdLS pdDS raw tail
                         (acc ++ (contentStr func_eval_value).toList) st3)
        | _ =>
          match findDollarIdx ('{' :: rest) with
          | some j =>
            psLoopS pdLS pdDS raw (('{' :: rest).drop j)
              (acc ++ '$' :: ('{' :: rest).take j) st
          | none => (.ok (.str ⟨acc ++ '$' :: '{' :: rest⟩), st)
    | '}' :: tail =>
      if w = [] then
        match findDollarIdx ('{' :: rest) with
        | some j =>
          psLoopS pdLS pdDS raw (('{' :: rest).drop j)
            (acc ++ '$' :: ('{' :: rest).take j) st
        | none => (.ok (.str ⟨acc ++ '$' :: '{' :: rest⟩), st)
      else
        (match get_mapping_variableS ⟨w⟩ st with
         | (.error e, st1) => (.error e, st1)
         | (.ok var_value, st1) =>
           if '$' :: w = raw ∨ '$' :: '{' :: w ++ ['}'] = raw then
             (.ok var_value, st1)
           else
             psLoopS pdLS pdDS raw tail
               (acc ++ (contentStr var_value).toList) st1)
    | _ =>
      match findDollarIdx ('{' :: rest) with
      | some j =>
        psLoopS pdLS pdDS raw (('{' :: rest).drop j)
          (acc ++ '$' :: ('{' :: rest).take j) st
      | none => (.ok (.str ⟨acc ++ '$' :: '{' :: rest⟩), st)
  | '$' :: rest, acc, st =>
    let w := rest.takeWhile isWordChar
    if w = [] then
      match findDollarIdx rest with
      | some j =>
        psLoopS pdLS pdDS raw (rest.drop j) (acc ++ '$' :: rest.take j) st
      | none => (.ok (.str ⟨acc ++ '$' :: rest⟩), st)
    else
      (match get_mapping_variableS ⟨w⟩ st with
       | (.error e, st1) => (.error e, st1)
       | (.ok var_value, st1) =>
         if '$' :: w = raw ∨ '$' :: '{' :: w ++ ['}'] = raw then
           (.ok var_value, st1)
         else
           psLoopS pdLS pdDS raw (rest.dropWhile isWordChar)
             (acc ++ (contentStr var_value).toList) st1)
  | c :: rest, acc, st =>
    match findDollarIdx rest with
    | some j =>
      psLoopS pdLS pdDS raw (rest.drop j) (acc ++ c :: rest.take j) st
    | none => (.ok (.str ⟨acc ++ c :: rest⟩), st)
termination_by s a st => s.length
decreasing_by
all_goals simp_wf
all_goals
  try (have hw := congrArg List.length
        (List.takeWhile_append_dropWhile isWordChar rest))
all_goals
  try (have ha := congrArg List.length
        (List.takeWhile_append_dropWhile isArgChar r1))
all_goals
  try rw [hr] at hw
all_goals
  try rw [hr1] at ha
all_goals
  simp only [List.length_append, List.length_cons, List.length_drop,
    List.length_take] at *
all_goals
  omega

/-- State-threaded reading of `parse_string`. -/
def parse_stringS (fuel : Nat) (raw_string : String) :
    VarMap × FuncCtx → Except PyErr Content × (VarMap × FuncCtx) := fun st =>
  match fuel with
  | 0 => (.error .embedFuelOut, st)
  | fuel + 1 =>
    let l := raw_string.toList
    match findDollarIdx l with
    | none => (.ok (.str raw_string), st)
    | some i =>
      psLoopS (parseDataGLS (fun s => parse_stringS fuel s))
        (parseKwargsS (fun s => parse_stringS fuel s))
        l (l.drop i) (l.take i) st

/-- State-threaded reading of `parse_data`. -/
def parse_dataS (fuel : Nat) (raw_data : Content) (st : VarMap × FuncCtx) :
    Except PyErr Content × (VarMap × FuncCtx) :=
  parse_dataGS (fun s => parse_stringS fuel s) raw_data st

/-- State-threaded reading of `parse_variables_mapping`'s candidate step.
The state is the caller's pair (variables mapping, function context); the
resolved-so-far table is the engine's own fresh dict and is returned
separately.  The inner `parse_data` call receives the fresh table as its
variables mapping together with the threaded function context, exactly as
the source passes `parsed_variables` and `functions_mapping`. -/
def processNameS (fuel : Nat) (parsed_variables : VarMap) (var_name : String)
    (var_value : Content) (st : VarMap × FuncCtx) :
    Except PyErr VarMap × (VarMap × FuncCtx) :=
  if (List.lookup var_name parsed_variables).isSome then
    (.ok parsed_variables, st)
  else
    let vars := extract_variables var_value
    if var_name ∈ vars then
      (.error (.variableNotFound (.selfRef var_name)), st)
    else
      let not_defined_variables :=
        vars.filter (fun v => (List.lookup v st.1).isNone)
      if not_defined_variables ≠ [] then
        (.error (.variableNotFound (.undefined not_defined_variables)), st)
      else
        match parse_dataS fuel var_value (parsed_variables, st.2) with
        | (.error (.variableNotFound _), st1) => (.ok st1.1, (st.1, st1.2))
        | (.error e, st1) => (.error e, (st.1, st1.2))
        | (.ok parsed_value, st1) =>
          (.ok (recInsert st1.1 var_name parsed_value), (st.1, st1.2))

/-- State-threaded full pass over the mapping's entries. -/
def passAuxS (fuel : Nat) :
    List (String × Content) → VarMap → VarMap × FuncCtx →
      Except PyErr VarMap × (VarMap × FuncCtx)
  | [], parsed, st => (.ok parsed, st)
  | (n, v) :: rest, parsed, st =>
    match processNameS fuel parsed n v st with
    | (.error e, st1) => (.error e, st1)
    | (.ok parsed1, st1) => passAuxS fuel rest parsed1 st1

/-- State-threaded while loop of `parse_variables_mapping`. -/
def pvmLoopS (fuel : Nat) :
    Nat → VarMap → VarMap × FuncCtx →
      Except PyErr (Option VarMap) × (VarMap × FuncCtx)
  | 0, _, st => (.ok none, st)
  | passes + 1, parsed, st =>
    if parsed.length = st.1.length then (.ok (some parsed), st)
    else
      match passAuxS fuel st.1 parsed st with
      | (.error e, st1) => (.error e, st1)
      | (.ok parsed1, st1) => pvmLoopS fuel passes parsed1 st1

/-- State-threaded reading of `parse_variables_mapping`. -/
def parse_variables_mappingS (passes fuel : Nat) (st : VarMap × FuncCtx) :
    Except PyErr (Option VarMap) × (VarMap × FuncCtx) :=
  pvmLoopS fuel passes [] st

/-- Size of the cartesian product of record lists. -/
def prodLen (ls : List (List PRec)) : Nat := (ls.map List.length).prod

/-- Mixed-radix characterization of the cartesian product's order: the
record at index `i` merges, spec by spec, the pick whose index is the
corresponding mixed-radix digit of `i`, the earliest spec varying slowest. -/
def productRecordAt : List (List PRec) → Nat → PRec
  | [], _ => []
  | l :: rest, i =>
    mergeRec (l.getD (i / prodLen rest) [])
      (productRecordAt rest (i % prodLen rest))

/-- Valid notation name: nonempty run of word characters. -/
def validName (x : String) : Prop :=
  x.toList ≠ [] ∧ ∀ c ∈ x.toList, isWordChar c = true

/-- Absence of dollar signs in a string. -/
def noDollar (s : String) : Prop := '$' ∉ s.toList

/-- Absence of opening parens anywhere in a character list; a sufficient
syntactic condition for the function-call regex never to match in the
string, since its pattern requires a literal paren. -/
def parenFree (l : List Char) : Prop := '(' ∉ l

mutual

/-- Content whose strings contain no paren anywhere (so resolving it can
never enter the function-call branch). -/
def parenFreeContent : Content → Prop
  | .str s => parenFree s.toList
  | .list xs => parenFreeList xs
  | .tuple xs => parenFreeList xs
  | .setv xs => parenFreeList xs
  | .dict kvs => parenFreePairs kvs
  | _ => True

/-- Elementwise paren freedom. -/
def parenFreeList : List Content → Prop
  | [] => True
  | x :: xs => parenFreeContent x ∧ parenFreeList xs

/-- Pairwise paren freedom (keys and values). -/
def parenFreePairs : List (Content × Content) → Prop
  | [] => True
  | (k, v) :: kvs => parenFreeContent k ∧ parenFreeContent v ∧ parenFreePairs kvs

end

/-- A mapping key that resolves to itself: a dollar-free string (stripped
or not, it stays a string) or an immutable scalar.  Such a key's resolution
is hashable, so the dict rebuild's assignment cannot raise `TypeError` on
it. -/
def plainKeyC : Content → Prop
  | .str s => '$' ∉ s.toList
  | .int _ => True
  | .bool _ => True
  | .null => True
  | _ => False

mutual

/-- Content whose dict keys (recursively, anywhere inside) all resolve to
hashable values, so that resolving it can never hit the dict rebuild's
unhashable-key `TypeError`. -/
def hashSafeContent : Content → Prop
  | .list xs => hashSafeList xs
  | .tuple xs => hashSafeList xs
  | .setv xs => hashSafeList xs
  | .dict kvs => hashSafePairs kvs
  | _ => True

/-- Elementwise hash safety. -/
def hashSafeList : List Content → Prop
  | [] => True
  | x :: xs => hashSafeContent x ∧ hashSafeList xs

/-- Pairwise hash safety: every key resolves to itself (hence hashable) and
every value is recursively hash safe. -/
def hashSafePairs : List (Content × Content) → Prop
  | [] => True
  | (k, v) :: kvs => plainKeyC k ∧ hashSafeContent v ∧ hashSafePairs kvs

end

/-- Distinctness (under `beqC`) of a dict's keys; Python dicts always
satisfy it, the model's pair lists need it stated. -/
def distinctKeysC : List (Content × Content) → Prop
  | [] => True
  | (k, _) :: rest => (∀ p ∈ rest, beqC k p.1 = false) ∧ distinctKeysC rest

mutual

/-- Fully plain content for the idempotence claim: no dollar sign in any
string, no string with leading or trailing space or tab, no tuple or set
node (the walker rebuilds those as lists), and well-formed dicts. -/
def plainContent : Content → Prop
  | .str s => '$' ∉ s.toList ∧ pyStrip s = s
  | .list xs => plainList xs
  | .tuple _ => False
  | .setv _ => False
  | .dict kvs => distinctKeysC kvs ∧ plainPairs kvs
  | _ => True

/-- Elementwise plainness. -/
def plainList : List Content → Prop
  | [] => True
  | x :: xs => plainContent x ∧ plainList xs

/-- Pairwise plainness: hashable keys (any dict that is the image of a real
Python value has them, since Python rejects unhashable keys at construction
time), plain keys and plain values. -/
def plainPairs : List (Content × Content) → Prop
  | [] => True
  | (k, v) :: kvs =>
    isHashable k = true ∧ plainContent k ∧ plainContent v ∧ plainPairs kvs

end

/-- Stand-in external collaborator callable (never invoked by the claims
that use contexts built on it). -/
def stubFn : PyFunc := fun _ _ => .ok .null

/-- Function context with an empty supplied mapping, empty loaded registry
and empty Python-builtin table. -/
def fcEmpty : FuncCtx :=
  { user := [], csvLoader := stubFn, envLookup := stubFn,
    multipartEncoder := stubFn, multipartContentType := stubFn,
    builtinRegistry := [], pyBuiltins := [] }

/-- Two-argument integer addition callable, the spec's `add` example. -/
def addFn : PyFunc := fun args kwargs =>
  match args, kwargs with
  | [.int a, .int b], [] => .ok (.int (a + b))
  | _, _ => .error (.typeError "add expects two ints")

/-- Context supplying only `add`. -/
def fcAdd : FuncCtx := { fcEmpty with user := [("add", addFn)] }

/-- Account-list callable for the parameter-expansion claims: returns one
mapping that lacks the `password` field. -/
def getAccFn : PyFunc := fun _ _ =>
  .ok (.list [.dict [(.str "username", .str "u1")]])

/-- Context supplying only `get_acc`. -/
def fcAcc : FuncCtx := { fcEmpty with user := [("get_acc", getAccFn)] }

/-- The mutual-cycle variables mapping of claim C1. -/
def cycleMap : VarMap := [("a", .str "$b"), ("b", .str "$a")]

/-- Counterexample mapping for claim C3: the first entry calls an unknown
function, the second references itself. -/
def cexMapC3 : VarMap := [("a", .str "${nosuchfunc()}"), ("b", .str "$b")]

/-- The dash-split field names of a parameter name (the source's
`parameter_name_list`). -/
def dashNames (parameter_name : String) : List String :=
  (splitChar '-' parameter_name.toList).map (fun l => (⟨l⟩ : String))

/-- The record list a literal-sequence parameter entry expands to (the
literal branch of `buildOne`); other source kinds are irrelevant here and
map to the empty list. -/
def litRecords (p : String × Content) : List PRec :=
  match p.2 with
  | .list items =>
    items.map (fun item => dictOfZip (dashNames p.1) (wrapItem item))
  | _ => []

/-- Round trip of the string constructor. -/
theorem toList_mk (l : List Char) : (String.mk l).toList = l := rfl

/-- No dollar sign, no scan position. -/
theorem findDollarIdx_none (l : List Char) (h : '$' ∉ l) :
    findDollarIdx l = none := by
  induction l with
  | nil => rfl
  | cons c rest ih =>
    simp only [findDollarIdx]
    rw [if_neg (fun hc => h (by simp [hc])), ih (fun hx => h (by simp [hx]))]
    rfl

/-- The scan position of a string whose first dollar follows a dollar-free
prefix. -/
theorem findDollarIdx_app (p r : List Char) (hp : '$' ∉ p) :
    findDollarIdx (p ++ '$' :: r) = some p.length := by
  induction p with
  | nil => simp [findDollarIdx]
  | cons c cs ih =>
    simp only [List.cons_append, findDollarIdx, List.append_eq]
    rw [if_neg (fun hc => hp (by simp [hc])), ih (fun hx => hp (by simp [hx]))]
    rfl

/-- Greedy word run: `takeWhile` over a satisfying run followed by a
non-satisfying head takes exactly the run. -/
theorem takeWhile_run (p : Char → Bool) (w r : List Char)
    (hw : ∀ c ∈ w, p c = true) (hr : ∀ c, r.head? = some c → p c = false) :
    (w ++ r).takeWhile p = w := by
  rw [List.takeWhile_append_of_pos hw]
  cases r with
  | nil => simp
  | cons c rest => simp [List.takeWhile_cons, hr c rfl]

/-- Greedy word run: `dropWhile` over a satisfying run followed by a
non-satisfying head drops exactly the run. -/
theorem dropWhile_run (p : Char → Bool) (w r : List Char)
    (hw : ∀ c ∈ w, p c = true) (hr : ∀ c, r.head? = some c → p c = false) :
    (w ++ r).dropWhile p = r := by
  rw [List.dropWhile_append_of_pos hw]
  cases r with
  | nil => simp
  | cons c rest => simp [List.dropWhile_cons, hr c rfl]

/-- Scanner step: end of input returns the accumulated string. -/
theorem psLoopG_nil (pdL) (pdD) (raw : List Char) (vm : VarMap) (fc : FuncCtx)
    (acc : List Char) :
    psLoopG pdL pdD raw vm fc [] acc = .ok (.str ⟨acc⟩) := by
  rw [psLoopG.eq_def]

/-- Scanner step: the double-dollar escape emits one literal dollar. -/
theorem psLoopG_dollar (pdL) (pdD) (raw : List Char) (vm : VarMap)
    (fc : FuncCtx) (rest acc : List Char) :
    psLoopG pdL pdD raw vm fc ('$' :: '$' :: rest) acc =
      psLoopG pdL pdD raw vm fc rest (acc ++ ['$']) := by
  rw [psLoopG.eq_def]
  rfl

/-- Scanner step: a braced variable reference resolves the name and either
returns the native value (whole-string reference) or stringifies it into the
accumulator. -/
theorem psLoopG_braceVar (pdL) (pdD) (raw : List Char) (vm : VarMap)
    (fc : FuncCtx) (rest tail w acc : List Char)
    (hw : rest.takeWhile isWordChar = w)
    (hd : rest.dropWhile isWordChar = '}' :: tail) (hne : w ≠ []) :
    psLoopG pdL pdD raw vm fc ('$' :: '{' :: rest) acc =
      (match get_mapping_variable ⟨w⟩ vm with
       | .error e => .error e
       | .ok var_value =>
         if '$' :: w = raw ∨ '$' :: '{' :: w ++ ['}'] = raw then .ok var_value
         else
           psLoopG pdL pdD raw vm fc tail
             (acc ++ (contentStr var_value).toList)) := by
  rw [psLoopG.eq_3]
  split
  · rename_i r1 heq
    rw [hd] at heq
    injection heq with h1 h2
    exact absurd h1 (by decide)
  · rename_i tail2 heq
    rw [hd] at heq
    injection heq with h1 h2
    subst h2
    rw [hw, if_neg hne]
  · rename_i hx1 hx2
    exact absurd hd (hx2 tail)

/-- Scanner step: a function-call occurrence resolves the callable, parses
and resolves its arguments, invokes it, and either returns the native result
(whole-string reference) or stringifies it into the accumulator. -/
theorem psLoopG_func (pdL) (pdD) (raw : List Char) (vm : VarMap)
    (fc : FuncCtx) (rest r1 args tail w acc : List Char)
    (hw : rest.takeWhile isWordChar = w)
    (hd : rest.dropWhile isWordChar = '(' :: r1) (hne : w ≠ [])
    (ha : r1.takeWhile isArgChar = args)
    (ha2 : r1.dropWhile isArgChar = ')' :: '}' :: tail) :
    psLoopG pdL pdD raw vm fc ('$' :: '{' :: rest) acc =
      (match get_mapping_function ⟨w⟩ fc with
       | .error e => .error e
       | .ok f =>
         match parse_function_params ⟨args⟩ with
         | .error e => .error e
         | .ok meta =>
           match pdL meta.args with
           | .error e => .error e
           | .ok parsed_args =>
             match pdD meta.kwargs with
             | .error e => .error e
             | .ok parsed_kwargs =>
               match f parsed_args parsed_kwargs with
               | .error e => .error e
               | .ok func_eval_value =>
                 if '$' :: '{' :: w ++ '(' :: args ++ [')', '}'] = raw then
                   .ok func_eval_value
                 else
                   psLoopG pdL pdD raw vm fc tail
                     (acc ++ (contentStr func_eval_value).toList)) := by
  rw [psLoopG.eq_3]
  split
  · rename_i r1x heq
    rw [hd] at heq
    injection heq with h1 h2
    subst h2
    rw [hw, if_neg hne]
    split
    · rename_i tailx heq2
      rw [ha2] at heq2
      injection heq2 with g1 g2
      injection g2 with g3 g4
      subst g4
      rw [ha]
    · rename_i hx1
      exact absurd ha2 (hx1 tail)
  · rename_i tailx heq
    rw [hd] at heq
    injection heq with h1 h2
    exact absurd h1 (by decide)
  · rename_i hx1 hx2
    exact absurd hd (hx1 r1)

/-- Scanner step: a bare variable reference (dollar followed directly by a
word run) resolves the name with the same whole-string-or-stringify rule. -/
theorem psLoopG_bareVar (pdL) (pdD) (raw : List Char) (vm : VarMap)
    (fc : FuncCtx) (rest w acc : List Char)
    (hw : rest.takeWhile isWordChar = w) (hne : w ≠ []) :
    psLoopG pdL pdD raw vm fc ('$' :: rest) acc =
      (match get_mapping_variable ⟨w⟩ vm with
       | .error e => .error e
       | .ok var_value =>
         if '$' :: w = raw ∨ '$' :: '{' :: w ++ ['}'] = raw then .ok var_value
         else
           psLoopG pdL pdD raw vm fc (rest.dropWhile isWordChar)
             (acc ++ (contentStr var_value).toList)) := by
  obtain ⟨c, rest2, rfl⟩ : ∃ c rest2, rest = c :: rest2 := by
    cases rest with
    | nil => exact absurd hw.symm (by simpa using hne)
    | cons c rest2 => exact ⟨c, rest2, rfl⟩
  have hc : isWordChar c = true := by
    by_contra hcf
    rw [List.takeWhile_cons, if_neg (by simpa using hcf)] at hw
    exact hne hw.symm
  rw [psLoopG.eq_4]
  · rw [hw, if_neg hne]
  · rintro r2 h
    injection h with h1 _
    rw [h1] at hc
    exact absurd hc (by decide)
  · rintro r2 h
    injection h with h1 _
    rw [h1] at hc
    exact absurd hc (by decide)

/-- Scanner step: at a position whose character is not a dollar, the scan
appends the text up to the next dollar (or all of it) and continues there. -/
theorem psLoopG_skip (pdL) (pdD) (raw : List Char) (vm : VarMap)
    (fc : FuncCtx) (c : Char) (rest acc : List Char) (hc : c ≠ '$') :
    psLoopG pdL pdD raw vm fc (c :: rest) acc =
      (match findDollarIdx rest with
       | some j =>
         psLoopG pdL pdD raw vm fc (rest.drop j) (acc ++ c :: rest.take j)
       | none => .ok (.str ⟨acc ++ c :: rest⟩)) := by
  rw [psLoopG.eq_5]
  · rintro r1 hcc _
    exact hc hcc
  · rintro r1 hcc _
    exact hc hcc
  · exact fun hcc => hc hcc

/-- Scanner run-out: a suffix without any dollar is appended verbatim and
the scan stops. -/
theorem psLoopG_noDollarTail (pdL) (pdD) (raw : List Char) (vm : VarMap)
    (fc : FuncCtx) (s acc : List Char) (hs : '$' ∉ s) :
    psLoopG pdL pdD raw vm fc s acc = .ok (.str ⟨acc ++ s⟩) := by
  cases s with
  | nil => rw [psLoopG_nil]; simp
  | cons c s2 =>
    rw [psLoopG_skip pdL pdD raw vm fc c s2 acc (fun hcc => hs (by simp [hcc]))]
    rw [findDollarIdx_none s2 (fun hx => hs (by simp [hx]))]

/-- String resolution of a dollar-free string returns it unchanged. -/
theorem parse_string_noDollar (fuel : Nat) (s : String) (vm : VarMap)
    (fc : FuncCtx) (hs : noDollar s) :
    parse_string (fuel + 1) s vm fc = .ok (.str s) := by
  rw [parse_string]
  rw [findDollarIdx_none s.toList hs]

/-- Whole-string bare variable reference: `parse_string` on exactly a dollar
and a name is exact-key lookup, returning the native value. -/
theorem parse_string_bareVar (fuel : Nat) (w : List Char) (vm : VarMap)
    (fc : FuncCtx) (hword : ∀ c ∈ w, isWordChar c = true) (hne : w ≠ []) :
    parse_string (fuel + 1) ⟨'$' :: w⟩ vm fc = get_mapping_variable ⟨w⟩ vm := by
  rw [parse_string]
  have h0 : findDollarIdx (String.mk ('$' :: w)).toList = some 0 := by
    simp [findDollarIdx, toList_mk]
  rw [toList_mk] at h0 ⊢
  rw [h0]
  simp only [List.drop_zero, List.take_zero]
  have hw : w.takeWhile isWordChar = w := by
    have := takeWhile_run isWordChar w [] hword (by intro c hc; cases hc)
    simpa using this
  rw [psLoopG_bareVar _ _ _ _ _ w w [] hw hne]
  cases get_mapping_variable ⟨w⟩ vm with
  | error e => rfl
  | ok v => simp

/-- Whole-string braced variable reference: `parse_string` on exactly a
braced name is exact-key lookup, returning the native value. -/
theorem parse_string_braceVar (fuel : Nat) (w : List Char) (vm : VarMap)
    (fc : FuncCtx) (hword : ∀ c ∈ w, isWordChar c = true) (hne : w ≠ []) :
    parse_string (fuel + 1) ⟨'$' :: '{' :: (w ++ ['}'])⟩ vm fc =
      get_mapping_variable ⟨w⟩ vm := by
  rw [parse_string]
  have h0 : findDollarIdx ('$' :: '{' :: (w ++ ['}'])) = some 0 := by
    simp [findDollarIdx]
  rw [toList_mk, h0]
  simp only [List.drop_zero, List.take_zero]
  rw [psLoopG_braceVar _ _ _ _ _ (w ++ ['}']) [] w []
    (takeWhile_run isWordChar w ['}'] hword
      (fun c hc => by simp at hc; subst hc; decide))
    (dropWhile_run isWordChar w ['}'] hword
      (fun c hc => by simp at hc; subst hc; decide)) hne]
  cases get_mapping_variable ⟨w⟩ vm with
  | error e => rfl
  | ok v => simp

/-- Partial braced variable reference: when the braced occurrence sits
strictly inside the string (dollar-free prefix and suffix around it), the
resolved value is stringified and concatenated. -/
theorem parse_string_bracePartial (fuel : Nat) (p w s : List Char)
    (vm : VarMap) (fc : FuncCtx)
    (hword : ∀ c ∈ w, isWordChar c = true) (hne : w ≠ [])
    (hp : '$' ∉ p) (hs : '$' ∉ s) (hps : p ≠ [] ∨ s ≠ []) :
    parse_string (fuel + 1) ⟨p ++ '$' :: '{' :: (w ++ '}' :: s)⟩ vm fc =
      (match get_mapping_variable ⟨w⟩ vm with
       | .error e => .error e
       | .ok var_value =>
         .ok (.str ⟨p ++ (contentStr var_value).toList ++ s⟩)) := by
  rw [parse_string, toList_mk]
  rw [findDollarIdx_app p ('{' :: (w ++ '}' :: s)) hp]
  dsimp only
  have hdrop : (p ++ '$' :: '{' :: (w ++ '}' :: s)).drop p.length =
      '$' :: '{' :: (w ++ '}' :: s) := List.drop_left p _
  have htake : (p ++ '$' :: '{' :: (w ++ '}' :: s)).take p.length = p :=
    List.take_left p _
  rw [hdrop, htake]
  rw [psLoopG_braceVar _ _ _ _ _ (w ++ '}' :: s) s w p
    (takeWhile_run isWordChar w ('}' :: s) hword
      (fun c hc => by simp at hc; subst hc; decide))
    (dropWhile_run isWordChar w ('}' :: s) hword
      (fun c hc => by simp at hc; subst hc; decide)) hne]
  cases get_mapping_variable ⟨w⟩ vm with
  | error e => rfl
  | ok v =>
    dsimp only
    have hpl : p.length ≠ 0 ∨ s.length ≠ 0 := by
      rcases hps with hq | hq
      · exact Or.inl (fun hz => hq (List.length_eq_zero.mp hz))
      · exact Or.inr (fun hz => hq (List.length_eq_zero.mp hz))
    have hcond : ¬('$' :: w = p ++ '$' :: '{' :: (w ++ '}' :: s) ∨
        '$' :: '{' :: w ++ ['}'] = p ++ '$' :: '{' :: (w ++ '}' :: s)) := by
      rintro (h | h)
      · have hlen := congrArg List.length h
        simp at hlen
        omega
      · have hlen := congrArg List.length h
        simp at hlen
        omega
    rw [if_neg hcond]
    rw [psLoopG_noDollarTail _ _ _ _ _ s _ hs]

/-- Partial bare variable reference: when the bare occurrence sits strictly
inside the string (dollar-free prefix, and a dollar-free suffix that does
not begin with a word character, so the name run ends there), the resolved
value is stringified and concatenated. -/
theorem parse_string_barePartial (fuel : Nat) (p w s : List Char)
    (vm : VarMap) (fc : FuncCtx)
    (hword : ∀ c ∈ w, isWordChar c = true) (hne : w ≠ [])
    (hp : '$' ∉ p) (hs : '$' ∉ s)
    (hshead : ∀ c, s.head? = some c → isWordChar c = false)
    (hps : p ≠ [] ∨ s ≠ []) :
    parse_string (fuel + 1) ⟨p ++ '$' :: (w ++ s)⟩ vm fc =
      (match get_mapping_variable ⟨w⟩ vm with
       | .error e => .error e
       | .ok var_value =>
         .ok (.str ⟨p ++ (contentStr var_value).toList ++ s⟩)) := by
  rw [parse_string, toList_mk]
  rw [findDollarIdx_app p (w ++ s) hp]
  dsimp only
  rw [List.drop_left p _, List.take_left p _]
  rw [psLoopG_bareVar _ _ _ _ _ (w ++ s) w p
    (takeWhile_run isWordChar w s hword hshead) hne]
  cases get_mapping_variable ⟨w⟩ vm with
  | error e => rfl
  | ok v =>
    dsimp only
    have hpl : p.length ≠ 0 ∨ s.length ≠ 0 := by
      rcases hps with hq | hq
      · exact Or.inl (fun hz => hq (List.length_eq_zero.mp hz))
      · exact Or.inr (fun hz => hq (List.length_eq_zero.mp hz))
    have hcond : ¬('$' :: w = p ++ '$' :: (w ++ s) ∨
        '$' :: '{' :: w ++ ['}'] = p ++ '$' :: (w ++ s)) := by
      rintro (h | h)
      · have hlen := congrArg List.length h
        simp at hlen
        omega
      · cases p with
        | cons c p2 =>
          have hh := congrArg List.head? h
          simp only [List.cons_append, List.head?_cons] at hh
          have hcd : c = '$' := by
            simp at hh
            exact hh.symm
          exact hp (by simp [hcd])
        | nil =>
          simp only [List.nil_append] at h
          have htl := congrArg List.tail h
          simp only [List.cons_append, List.tail_cons] at htl
          cases w with
          | nil => exact hne rfl
          | cons cw w2 =>
            have hh := congrArg List.head? htl
            simp only [List.cons_append, List.head?_cons] at hh
            have hcw : cw = '\x7b' := by
              simp at hh
              exact hh.symm
            have hwc := hword cw (by simp)
            rw [hcw] at hwc
            exact absurd hwc (by decide)
    rw [if_neg hcond]
    rw [dropWhile_run isWordChar w s hword hshead]
    rw [psLoopG_noDollarTail _ _ _ _ _ s _ hs]

/-- C2: for every string that is exactly one notation occurrence, the
String Resolver returns the resolved value with its native kind preserved
(a whole-string variable reference, bare or braced, returns the exact-key
lookup result; the whole-string function call example returns the integer
3); and when the notation is a proper substring, the resolved sub-value is
stringified and concatenated into the surrounding text (shown for both
variable forms universally, and for the function-call example). -/
theorem claim_C2_whole_string_type_preservation :
    (∀ (fuel : Nat) (w : List Char) (vm : VarMap) (fc : FuncCtx),
      (∀ c ∈ w, isWordChar c = true) → w ≠ [] →
      parse_string (fuel + 1) ⟨'$' :: w⟩ vm fc = get_mapping_variable ⟨w⟩ vm ∧
      parse_string (fuel + 1) ⟨'$' :: '{' :: (w ++ ['}'])⟩ vm fc =
        get_mapping_variable ⟨w⟩ vm) ∧
    (∀ (fuel : Nat) (p w s : List Char) (vm : VarMap) (fc : FuncCtx)
      (v : Content),
      (∀ c ∈ w, isWordChar c = true) → w ≠ [] →
      '$' ∉ p → '$' ∉ s → (p ≠ [] ∨ s ≠ []) →
      get_mapping_variable ⟨w⟩ vm = .ok v →
      parse_string (fuel + 1) ⟨p ++ '$' :: '{' :: (w ++ '}' :: s)⟩ vm fc =
        .ok (.str ⟨p ++ (contentStr v).toList ++ s⟩) ∧
      ((∀ c, s.head? = some c → isWordChar c = false) →
        parse_string (fuel + 1) ⟨p ++ '$' :: (w ++ s)⟩ vm fc =
          .ok (.str ⟨p ++ (contentStr v).toList ++ s⟩))) ∧
    (∀ fuel : Nat,
      parse_string (fuel + 1) "${add(1,2)}" [] fcAdd = .ok (.int 3) ∧
      parse_string (fuel + 1) "v=${add(1,2)}" [] fcAdd = .ok (.str "v=3")) := by
  refine ⟨?_, ?_, ?_⟩
  · intro fuel w vm fc hword hne
    exact ⟨parse_string_bareVar fuel w vm fc hword hne,
      parse_string_braceVar fuel w vm fc hword hne⟩
  · intro fuel p w s vm fc v hword hne hp hs hps hv
    constructor
    · rw [parse_string_bracePartial fuel p w s vm fc hword hne hp hs hps, hv]
    · intro hshead
      rw [parse_string_barePartial fuel p w s vm fc hword hne hp hs hshead hps,
        hv]
  · intro fuel
    constructor
    · rw [parse_string]
      rw [show ("${add(1,2)}" : String).toList =
        '$' :: '{' :: ['a', 'd', 'd', '(', '1', ',', '2', ')', '}'] from rfl]
      rw [show findDollarIdx
        ('$' :: '{' :: ['a', 'd', 'd', '(', '1', ',', '2', ')', '}']) =
        some 0 from rfl]
      simp only [List.drop_zero, List.take_zero]
      rw [psLoopG_func _ _ _ _ _ ['a', 'd', 'd', '(', '1', ',', '2', ')', '}']
        ['1', ',', '2', ')', '}'] ['1', ',', '2'] [] ['a', 'd', 'd'] []
        rfl rfl (by decide) rfl rfl]
      rfl
    · rw [parse_string]
      rw [show ("v=${add(1,2)}" : String).toList =
        ['v', '='] ++ '$' :: '{' :: ['a', 'd', 'd', '(', '1', ',', '2', ')', '}']
        from rfl]
      rw [findDollarIdx_app ['v', '='] _ (by decide)]
      dsimp only
      rw [List.drop_left ['v', '='] _, List.take_left ['v', '='] _]
      rw [psLoopG_func _ _ _ _ _ ['a', 'd', 'd', '(', '1', ',', '2', ')', '}']
        ['1', ',', '2', ')', '}'] ['1', ',', '2'] [] ['a', 'd', 'd'] ['v', '=']
        rfl rfl (by decide) rfl rfl]
      have hc : psLoopG (parseDataGL fun s => parse_string fuel s [] fcAdd)
          (parseKwargs fun s => parse_string fuel s [] fcAdd)
          (['v', '='] ++ ['$', '{', 'a', 'd', 'd', '(', '1', ',', '2', ')', '}'])
          [] fcAdd [] (['v', '='] ++ (contentStr (Content.int 3)).toList) =
          .ok (.str "v=3") := by
        rw [psLoopG_nil]
        simp [contentStr]
        decide
      exact hc

/-- C2 witness: concrete instances - a whole-string bare variable returns
the integer 5 natively, a partial reference stringifies it, and the
function-call example returns the integer 3. -/
theorem claim_C2_witness :
    parse_string 1 ⟨'$' :: ['x']⟩ [("x", .int 5)] fcEmpty = .ok (.int 5) ∧
    parse_string 1 ⟨['v', '='] ++ '$' :: (['x'] ++ [])⟩ [("x", .int 5)]
      fcEmpty = .ok (.str ⟨['v', '='] ++ (contentStr (.int 5)).toList ++ []⟩) ∧
    parse_string 1 "${add(1,2)}" [] fcAdd = .ok (.int 3) := by
  refine ⟨?_, ?_, ?_⟩
  · rw [(claim_C2_whole_string_type_preservation.1 0 ['x'] [("x", .int 5)]
      fcEmpty (by decide) (by decide)).1]
    rfl
  · rw [((claim_C2_whole_string_type_preservation.2.1 0 ['v', '='] ['x'] []
      [("x", .int 5)] fcEmpty (.int 5) (by decide) (by decide) (by decide)
      (by decide) (Or.inl (by decide)) rfl).2 (by intro c hc; cases hc))]
  · exact (claim_C2_whole_string_type_preservation.2.2 0).1

/-- Candidate `a` of the cycle mapping is skipped by a pass: its reference
`b` is defined but not yet resolved, so `parse_data` raises
`VariableNotFound`, which the pass catches and defers. -/
theorem cycle_processName_a (fuel : Nat) (fc : FuncCtx) :
    processName cycleMap fc (fuel + 1) [] "a" (.str "$b") = .ok [] := by
  rw [processName]
  rw [show extract_variables (.str "$b") = ["b"] from by
    simp +decide [extract_variables, regex_findall_variables, findDollarIdx,
      rfvLoop]]
  have hpd : parse_data (fuel + 1) (.str "$b") [] fc =
      .error (.variableNotFound (.lookupMiss "b")) := by
    show parse_string (fuel + 1) (pyStrip "$b") [] fc = _
    rw [show pyStrip "$b" = ⟨'$' :: ['b']⟩ from rfl]
    rw [parse_string_bareVar fuel ['b'] [] fc (by decide) (by decide)]
    rfl
  simp +decide [cycleMap, List.lookup, hpd]

/-- Candidate `b` of the cycle mapping is likewise skipped by a pass. -/
theorem cycle_processName_b (fuel : Nat) (fc : FuncCtx) :
    processName cycleMap fc (fuel + 1) [] "b" (.str "$a") = .ok [] := by
  rw [processName]
  rw [show extract_variables (.str "$a") = ["a"] from by
    simp +decide [extract_variables, regex_findall_variables, findDollarIdx,
      rfvLoop]]
  have hpd : parse_data (fuel + 1) (.str "$a") [] fc =
      .error (.variableNotFound (.lookupMiss "a")) := by
    show parse_string (fuel + 1) (pyStrip "$a") [] fc = _
    rw [show pyStrip "$a" = ⟨'$' :: ['a']⟩ from rfl]
    rw [parse_string_bareVar fuel ['a'] [] fc (by decide) (by decide)]
    rfl
  simp +decide [cycleMap, List.lookup, hpd]

/-- A full pass over the cycle mapping resolves nothing: the resolved table
stays empty and no exception is raised. -/
theorem cycle_pass (fuel : Nat) (fc : FuncCtx) :
    passAux cycleMap fc (fuel + 1) cycleMap [] = .ok [] := by
  show passAux cycleMap fc (fuel + 1)
    [("a", .str "$b"), ("b", .str "$a")] [] = .ok []
  rw [passAux]
  rw [cycle_processName_a fuel fc]
  show passAux cycleMap fc (fuel + 1) [("b", .str "$a")] [] = .ok []
  rw [passAux]
  rw [cycle_processName_b fuel fc]
  rfl

/-- C1: on the mutual-cycle mapping the source's fixed-point loop never
terminates and never raises - each full pass returns with the resolved
table unchanged and no exception, so the while condition stays true for
every pass budget (the claim's required bounded-pass cycle error does not
happen; the spec's design notes flag this no-progress check as a deliberate
strengthening over the observed source). -/
theorem claim_C1_mutual_cycle_loops_forever :
    (∀ (passes fuel : Nat) (fc : FuncCtx),
      parse_variables_mapping passes (fuel + 1) cycleMap fc = .ok none) ∧
    (∀ (fuel : Nat) (fc : FuncCtx),
      passAux cycleMap fc (fuel + 1) cycleMap [] = .ok []) := by
  constructor
  · intro passes
    induction passes with
    | zero => intro fuel fc; rfl
    | succ n ih =>
      intro fuel fc
      show pvmLoop cycleMap fc (fuel + 1) (n + 1) [] = .ok none
      rw [pvmLoop]
      rw [if_neg (by decide)]
      rw [cycle_pass fuel fc]
      exact ih fuel fc
  · exact cycle_pass

/-- C9: an argument token with more than one equals sign makes
`parse_function_params` fail with Python's generic unpacking `ValueError`,
which is none of the three specified error kinds. -/
theorem claim_C9_double_equals_value_error :
    parse_function_params "a=b=c" =
      .error (.valueError "too many values to unpack") ∧
    (∀ i, (PyErr.valueError "too many values to unpack") ≠
      .variableNotFound i) ∧
    (∀ n, (PyErr.valueError "too many values to unpack") ≠
      .functionNotFound n) ∧
    (∀ m, (PyErr.valueError "too many values to unpack") ≠
      .paramsError m) := by
  refine ⟨rfl, ?_, ?_, ?_⟩ <;> intro x h <;> cases h

/-- C10: a string-notation parameter source whose resolved list holds a
mapping that lacks one of the dash-split field names fails with a raw
`KeyError` from the subset selection, not with `ParamsError`. -/
theorem claim_C10_missing_field_key_error :
    parse_parameters 2 [("username-password", .str "${get_acc()}")] fcAcc =
      .error (.keyError "password") ∧
    (∀ m, (PyErr.keyError "password") ≠ .paramsError m) := by
  constructor
  · have hps : parse_data 2 (.str "${get_acc()}") [] fcAcc =
        .ok (.list [.dict [(.str "username", .str "u1")]]) := by
      show parse_string 2 (pyStrip "${get_acc()}") [] fcAcc = _
      rw [show pyStrip "${get_acc()}" =
        ⟨'$' :: '{' :: ['g', 'e', 't', '_', 'a', 'c', 'c', '(', ')', '}']⟩
        from rfl]
      rw [show (2 : Nat) = 1 + 1 from rfl, parse_string, toList_mk]
      rw [show findDollarIdx
        ('$' :: '{' :: ['g', 'e', 't', '_', 'a', 'c', 'c', '(', ')', '}'])
        = some 0 from rfl]
      dsimp only
      simp only [List.drop_zero, List.take_zero]
      rw [psLoopG_func _ _ _ _ _
        ['g', 'e', 't', '_', 'a', 'c', 'c', '(', ')', '}'] [')', '}'] []
        [] ['g', 'e', 't', '_', 'a', 'c', 'c'] []
        rfl rfl (by decide) rfl rfl]
      rfl
    have hbuild : buildOne 2 fcAcc "username-password"
        (.str "${get_acc()}") = .error (.keyError "password") := by
      simp only [buildOne]
      rw [hps]
      rfl
    simp only [parse_parameters, List.mapM, List.mapM.loop]
    rw [hbuild]
    rfl
  · intro m h
    cases h

/-- C4: the function resolver tries, in this exact order, the supplied
mapping, the fixed built-in aliases, the loaded built-in registry and the
host-runtime builtins; it raises `FunctionNotFound` exactly when every layer
misses; and its state-threaded reading returns the supplied context
unchanged (no mutation). -/
theorem claim_C4_function_resolver_chain :
    (∀ (n : String) (fc : FuncCtx) (f : PyFunc),
      List.lookup n fc.user = some f → get_mapping_function n fc = .ok f) ∧
    (∀ (n : String) (fc : FuncCtx), List.lookup n fc.user = none →
      (n = "parameterize" ∨ n = "P") →
      get_mapping_function n fc = .ok fc.csvLoader) ∧
    (∀ (n : String) (fc : FuncCtx), List.lookup n fc.user = none →
      (n = "environ" ∨ n = "ENV") →
      get_mapping_function n fc = .ok fc.envLookup) ∧
    (∀ fc : FuncCtx, List.lookup "multipart_encoder" fc.user = none →
      get_mapping_function "multipart_encoder" fc = .ok fc.multipartEncoder) ∧
    (∀ fc : FuncCtx, List.lookup "multipart_content_type" fc.user = none →
      get_mapping_function "multipart_content_type" fc =
        .ok fc.multipartContentType) ∧
    (∀ (n : String) (fc : FuncCtx) (g : PyFunc),
      List.lookup n fc.user = none →
      ¬(n = "parameterize" ∨ n = "P" ∨ n = "environ" ∨ n = "ENV" ∨
        n = "multipart_encoder" ∨ n = "multipart_content_type") →
      List.lookup n fc.builtinRegistry = some g →
      get_mapping_function n fc = .ok g) ∧
    (∀ (n : String) (fc : FuncCtx) (h : PyFunc),
      List.lookup n fc.user = none →
      ¬(n = "parameterize" ∨ n = "P" ∨ n = "environ" ∨ n = "ENV" ∨
        n = "multipart_encoder" ∨ n = "multipart_content_type") →
      List.lookup n fc.builtinRegistry = none →
      List.lookup n fc.pyBuiltins = some h →
      get_mapping_function n fc = .ok h) ∧
    (∀ (n : String) (fc : FuncCtx),
      (∃ e, get_mapping_function n fc = .error e) ↔
      (List.lookup n fc.user = none ∧
       ¬(n = "parameterize" ∨ n = "P" ∨ n = "environ" ∨ n = "ENV" ∨
         n = "multipart_encoder" ∨ n = "multipart_content_type") ∧
       List.lookup n fc.builtinRegistry = none ∧
       List.lookup n fc.pyBuiltins = none)) ∧
    (∀ (n : String) (fc : FuncCtx),
      (∀ e, get_mapping_function n fc = .error e →
        e = .functionNotFound n)) ∧
    (∀ (n : String) (st : VarMap × FuncCtx),
      get_mapping_functionS n st = (get_mapping_function n st.2, st)) := by
  have hval : ∀ (n : String) (fc : FuncCtx),
      List.lookup n fc.user = none →
      ¬(n = "parameterize" ∨ n = "P" ∨ n = "environ" ∨ n = "ENV" ∨
        n = "multipart_encoder" ∨ n = "multipart_content_type") →
      get_mapping_function n fc =
        (match List.lookup n fc.builtinRegistry with
         | some f => .ok f
         | none =>
           match List.lookup n fc.pyBuiltins with
           | some f => .ok f
           | none => .error (.functionNotFound n)) := by
    intro n fc hu hna
    rw [get_mapping_function, hu]
    rw [if_neg (fun h => hna (by tauto))]
    rw [if_neg (fun h => hna (by tauto))]
    rw [if_neg (fun h => hna (by tauto))]
    rw [if_neg (fun h => hna (by tauto))]
  refine ⟨?_, ?_, ?_, ?_, ?_, ?_, ?_, ?_, ?_, ?_⟩
  · intro n fc f hu
    rw [get_mapping_function, hu]
  · intro n fc hu ha
    rw [get_mapping_function, hu, if_pos ha]
  · intro n fc hu ha
    rw [get_mapping_function, hu]
    rw [if_neg (by rcases ha with rfl | rfl <;> decide)]
    rw [if_pos ha]
  · intro fc hu
    rw [get_mapping_function, hu]
    rw [if_neg (by decide), if_neg (by decide), if_pos (by decide)]
  · intro fc hu
    rw [get_mapping_function, hu]
    rw [if_neg (by decide), if_neg (by decide), if_neg (by decide),
      if_pos (by decide)]
  · intro n fc g hu hna hb
    rw [hval n fc hu hna, hb]
  · intro n fc h hu hna hb hp
    rw [hval n fc hu hna, hb, hp]
  · intro n fc
    constructor
    · rintro ⟨e, he⟩
      rw [get_mapping_function] at he
      cases hu : List.lookup n fc.user with
      | some f => rw [hu] at he; cases he
      | none =>
        rw [hu] at he
        have hna : ¬(n = "parameterize" ∨ n = "P" ∨ n = "environ" ∨
            n = "ENV" ∨ n = "multipart_encoder" ∨
            n = "multipart_content_type") := by
          rintro (h1 | h1 | h1 | h1 | h1 | h1) <;>
            subst h1 <;> revert he <;> simp +decide
        rw [if_neg (fun h => hna (by tauto)),
          if_neg (fun h => hna (by tauto)),
          if_neg (fun h => hna (by tauto)),
          if_neg (fun h => hna (by tauto))] at he
        refine ⟨rfl, hna, ?_, ?_⟩
        · cases hb : List.lookup n fc.builtinRegistry with
          | none => rfl
          | some g => rw [hb] at he; cases he
        · cases hp : List.lookup n fc.pyBuiltins with
          | none => rfl
          | some g =>
            cases hb : List.lookup n fc.builtinRegistry with
            | some g2 => rw [hb] at he; cases he
            | none => rw [hb, hp] at he; cases he
    · rintro ⟨hu, hna, hb, hp⟩
      exact ⟨.functionNotFound n, by rw [hval n fc hu hna, hb, hp]⟩
  · intro n fc e he
    rw [get_mapping_function] at he
    cases hu : List.lookup n fc.user with
    | some f => rw [hu] at he; cases he
    | none =>
      rw [hu] at he
      by_cases h1 : n = "parameterize" ∨ n = "P"
      · rw [if_pos h1] at he; cases he
      · rw [if_neg h1] at he
        by_cases h2 : n = "environ" ∨ n = "ENV"
        · rw [if_pos h2] at he; cases he
        · rw [if_neg h2] at he
          by_cases h3 : n = "multipart_encoder"
          · rw [if_pos h3] at he; cases he
          · rw [if_neg h3] at he
            by_cases h4 : n = "multipart_content_type"
            · rw [if_pos h4] at he; cases he
            · rw [if_neg h4] at he
              cases hb : List.lookup n fc.builtinRegistry with
              | some g => rw [hb] at he; cases he
              | none =>
                rw [hb] at he
                cases hp : List.lookup n fc.pyBuiltins with
                | some g => rw [hp] at he; cases he
                | none =>
                  rw [hp] at he
                  cases he
                  rfl
  · intro n st
    rw [get_mapping_functionS, get_mapping_function]
    cases hu : List.lookup n st.2.user with
    | some f => rfl
    | none =>
      dsimp only
      by_cases h1 : n = "parameterize" ∨ n = "P"
      · rw [if_pos h1, if_pos h1]
      · rw [if_neg h1, if_neg h1]
        by_cases h2 : n = "environ" ∨ n = "ENV"
        · rw [if_pos h2, if_pos h2]
        · rw [if_neg h2, if_neg h2]
          by_cases h3 : n = "multipart_encoder"
          · rw [if_pos h3, if_pos h3]
          · rw [if_neg h3, if_neg h3]
            by_cases h4 : n = "multipart_content_type"
            · rw [if_pos h4, if_pos h4]
            · rw [if_neg h4, if_neg h4]
              cases hb : List.lookup n st.2.builtinRegistry with
              | some g => rfl
              | none =>
                dsimp only
                cases hp : List.lookup n st.2.pyBuiltins with
                | some g => rfl
                | none => rfl

/-- C4 witness: the alias layer resolves `P` to the csv loader when the
supplied mapping is empty, an unknown name falls through every layer to
`FunctionNotFound`, and the state-threaded resolver hands the context back
unchanged. -/
theorem claim_C4_witness :
    get_mapping_function "P" fcEmpty = .ok fcEmpty.csvLoader ∧
    (∃ e, get_mapping_function "nosuch" fcEmpty = .error e) ∧
    get_mapping_functionS "nosuch" (([], fcEmpty) : VarMap × FuncCtx) =
      (get_mapping_function "nosuch"
        (([], fcEmpty) : VarMap × FuncCtx).2, ([], fcEmpty)) := by
  refine ⟨?_, ?_, ?_⟩
  · exact claim_C4_function_resolver_chain.2.1 "P" fcEmpty rfl (Or.inr rfl)
  · exact (claim_C4_function_resolver_chain.2.2.2.2.2.2.2.1 "nosuch"
      fcEmpty).2 ⟨rfl, by decide, rfl, rfl⟩
  · exact claim_C4_function_resolver_chain.2.2.2.2.2.2.2.2.2 "nosuch"
      (([], fcEmpty) : VarMap × FuncCtx)

mutual

/-- Resolution of plain content is the identity. -/
theorem plain_eval (fuel : Nat) (vm : VarMap) (fc : FuncCtx) :
    ∀ c, plainContent c →
      parse_dataG (fun s => parse_string (fuel + 1) s vm fc) c = .ok c
  | .null, _ => rfl
  | .bool _, _ => rfl
  | .int _, _ => rfl
  | .str s, hp => by
    obtain ⟨hnd, hsi⟩ := hp
    show parse_string (fuel + 1) (pyStrip s) vm fc = .ok (.str s)
    rw [hsi]
    exact parse_string_noDollar fuel s vm fc hnd
  | .list xs, hp => by
    simp only [parse_dataG]
    rw [plain_evalL fuel vm fc xs hp]
    rfl
  | .dict kvs, hp => by
    obtain ⟨hdk, hpl⟩ := hp
    simp only [parse_dataG]
    rw [plain_evalP fuel vm fc kvs hpl hdk [] (by intro p _ q hq; cases hq)]
    rfl

/-- Resolution of a plain sequence is the identity, elementwise. -/
theorem plain_evalL (fuel : Nat) (vm : VarMap) (fc : FuncCtx) :
    ∀ xs, plainList xs →
      parseDataGL (fun s => parse_string (fuel + 1) s vm fc) xs = .ok xs
  | [], _ => rfl
  | x :: xs, hp => by
    obtain ⟨h1, h2⟩ := hp
    simp only [parseDataGL]
    rw [plain_eval fuel vm fc x h1, plain_evalL fuel vm fc xs h2]
    rfl

/-- The mapping iteration on plain, distinct-keyed pairs resolves every
key and value to itself, every hashability check passes, and the built
dict extends the accumulator by exactly the original pairs. -/
theorem plain_evalP (fuel : Nat) (vm : VarMap) (fc : FuncCtx) :
    ∀ kvs, plainPairs kvs → distinctKeysC kvs →
      ∀ acc, (∀ p ∈ kvs, ∀ q ∈ acc, beqC q.1 p.1 = false) →
        parseDataGD (fun s => parse_string (fuel + 1) s vm fc) kvs acc =
          .ok (acc ++ kvs)
  | [], _, _, acc, _ => by
    rw [parseDataGD, List.append_nil]
  | (k, v) :: kvs, hp, hdk, acc, hdisj => by
    obtain ⟨hh, h1, h2, h3⟩ := hp
    obtain ⟨hk, hrest⟩ := hdk
    simp only [parseDataGD]
    rw [plain_eval fuel vm fc k h1]
    dsimp only
    rw [plain_eval fuel vm fc v h2]
    dsimp only
    have hnone : (acc.any (fun p => beqC p.1 k)) = false := by
      rw [List.any_eq_false]
      intro p hp2
      simp [hdisj (k, v) (by simp) p hp2]
    have hins : dictInsertC acc k v = .ok (acc ++ [(k, v)]) := by
      rw [dictInsertC, if_pos hh, pyDictInsert, hnone]
      simp
    rw [hins]
    dsimp only
    rw [plain_evalP fuel vm fc kvs h3 hrest (acc ++ [(k, v)]) ?hd]
    · rw [List.append_assoc, List.singleton_append]
    case hd =>
      intro p hp2 q hq
      rcases List.mem_append.mp hq with hq1 | hq1
      · exact hdisj p (by simp [hp2]) q hq1
      · have hqe : q = (k, v) := by simpa using hq1
        subst hqe
        exact hk p hp2

end

/-- C5 counterexample: the dollar-free string " abc" is not returned
unchanged - `parse_data` strips its leading space. -/
theorem claim_C5_counterexample :
    parse_data 1 (.str " abc") [] fcEmpty = .ok (.str "abc") ∧
    ('$' ∉ (" abc" : String).toList) ∧
    Content.str " abc" ≠ Content.str "abc" := by
  refine ⟨rfl, by decide, ?_⟩
  intro h
  injection h with h1
  exact absurd h1 (by decide)

/-- C5 amended: resolution is the identity on content with no dollar in any
string, no leading or trailing space or tab in any string, no tuple or set
node, and well-formed dicts. -/
theorem claim_C5_plain_content_identity (fuel : Nat) (c : Content)
    (vm : VarMap) (fc : FuncCtx) (hp : plainContent c) :
    parse_data (fuel + 1) c vm fc = .ok c :=
  plain_eval fuel vm fc c hp

/-- C5 witness: a concrete plain value comes back unchanged. -/
theorem claim_C5_witness :
    plainContent (.list [.str "abc", .int 5,
      .dict [(.str "k", .null), (.str "m", .bool true)]]) ∧
    parse_data 1 (.list [.str "abc", .int 5,
        .dict [(.str "k", .null), (.str "m", .bool true)]]) [] fcEmpty =
      .ok (.list [.str "abc", .int 5,
        .dict [(.str "k", .null), (.str "m", .bool true)]]) := by
  have hp : plainContent (.list [.str "abc", .int 5,
      .dict [(.str "k", .null), (.str "m", .bool true)]]) := by
    simp +decide [plainContent, plainList, plainPairs, distinctKeysC,
      pyStrip, pyStripBoth, beqC, isHashable]
  exact ⟨hp, claim_C5_plain_content_identity 0 _ [] fcEmpty hp⟩

/-- Length of `dropWhile` never exceeds the input's. -/
theorem dropWhile_length_le (p : Char → Bool) (l : List Char) :
    (l.dropWhile p).length ≤ l.length := by
  conv_rhs => rw [← List.takeWhile_append_dropWhile p l]
  rw [List.length_append]
  omega

/-- Variable lookup can only fail with the lookup-miss payload. -/
theorem gmv_err (nm : String) (vm : VarMap) (e : PyErr)
    (he : get_mapping_variable nm vm = .error e) :
    e = .variableNotFound (.lookupMiss nm) := by
  rw [get_mapping_variable] at he
  cases hl : List.lookup nm vm with
  | some v => rw [hl] at he; cases he
  | none =>
    rw [hl] at he
    cases he
    rfl

/-- Scanner errors on paren-free suffixes are lookup misses: without an
opening paren the function-call regex can never match, so the only failing
step is variable lookup. -/
theorem psLoopG_parenFree_err (pdL) (pdD) (raw : List Char) (vm : VarMap)
    (fc : FuncCtx) :
    ∀ (n : Nat) (suffix acc : List Char), suffix.length ≤ n →
      parenFree suffix →
      ∀ e, psLoopG pdL pdD raw vm fc suffix acc = .error e →
      ∃ nm, e = .variableNotFound (.lookupMiss nm) := by
  intro n
  induction n with
  | zero =>
    intro suffix acc hlen hpf e he
    have hnil : suffix = [] := List.length_eq_zero.mp (Nat.le_zero.mp hlen)
    subst hnil
    rw [psLoopG_nil] at he
    cases he
  | succ n ih =>
    intro suffix acc hlen hpf e he
    rw [psLoopG.eq_def] at he
    split at he
    · cases he
    · refine ih _ _ ?_ ?_ e he
      · simp only [List.length_cons] at hlen
        omega
      · intro hm
        exact hpf (by simp [hm])
    · rename_i u1 u2 R
      simp only [List.length_cons] at hlen
      split at he
      · rename_i r1 heq
        exfalso
        apply hpf
        have h1 : '(' ∈ R.dropWhile isWordChar := by rw [heq]; simp
        have h2 := (List.dropWhile_sublist isWordChar).mem h1
        simp [h2]
      · rename_i tail heq
        have htl : tail.length < R.length := by
          have h1 : tail.length + 1 = (R.dropWhile isWordChar).length := by
            rw [heq]
            simp
          have h2 := dropWhile_length_le isWordChar R
          omega
        have htp : '(' ∈ tail → '(' ∈ R := by
          intro hm
          refine (List.dropWhile_sublist isWordChar).mem ?_
          rw [heq]
          simp [hm]
        dsimp only at he
        by_cases hw : List.takeWhile isWordChar R = []
        · rw [if_pos hw] at he
          split at he
          · rename_i j hj
            refine ih _ _ ?_ ?_ e he
            · have hd := List.length_drop j ('{' :: R)
              simp only [List.length_cons] at hd ⊢
              omega
            · intro hm
              have hmem : '(' ∈ '{' :: R := (List.drop_sublist j _).mem hm
              exact hpf (by simpa using hmem)
          · cases he
        · rw [if_neg hw] at he
          split at he
          · rename_i e0 he0
            cases he
            exact ⟨_, gmv_err _ vm _ he0⟩
          · rename_i v hv
            split at he
            · cases he
            · refine ih _ _ ?_ ?_ e he
              · omega
              · intro hm
                exact hpf (by simp [htp hm])
      · rename_i hx1 hx2
        split at he
        · rename_i j hj
          refine ih _ _ ?_ ?_ e he
          · have hd := List.length_drop j ('{' :: R)
            simp only [List.length_cons] at hd ⊢
            omega
          · intro hm
            have hmem : '(' ∈ '{' :: R := (List.drop_sublist j _).mem hm
            exact hpf (by simpa using hmem)
        · cases he
    · rename_i R hne1 hne2
      simp only [List.length_cons] at hlen
      dsimp only at he
      by_cases hw : List.takeWhile isWordChar R = []
      · rw [if_pos hw] at he
        split at he
        · rename_i j hj
          refine ih _ _ ?_ ?_ e he
          · have hd := List.length_drop j R
            omega
          · intro hm
            have hmem : '(' ∈ R := (List.drop_sublist j _).mem hm
            exact hpf (by simp [hmem])
        · cases he
      · rw [if_neg hw] at he
        split at he
        · rename_i e0 he0
          cases he
          exact ⟨_, gmv_err _ vm _ he0⟩
        · rename_i v hv
          split at he
          · cases he
          · refine ih _ _ ?_ ?_ e he
            · have h2 := dropWhile_length_le isWordChar R
              omega
            · intro hm
              have h2 : '(' ∈ R :=
                (List.dropWhile_sublist isWordChar).mem hm
              exact hpf (by simp [h2])
    · rename_i u1 c R h1 h2 h3
      simp only [List.length_cons] at hlen
      split at he
      · rename_i j hj
        refine ih _ _ ?_ ?_ e he
        · have hd := List.length_drop j R
          omega
        · intro hm
          have hmem : '(' ∈ R := (List.drop_sublist j _).mem hm
          exact hpf (by simp [hmem])
      · cases he

/-- Membership in a two-sided strip is membership in the original. -/
theorem pyStripBoth_mem (p : Char → Bool) (l : List Char) (c : Char)
    (h : c ∈ pyStripBoth p l) : c ∈ l := by
  rw [pyStripBoth] at h
  rw [List.mem_reverse] at h
  have h1 := (List.dropWhile_sublist p).mem h
  rw [List.mem_reverse] at h1
  exact (List.dropWhile_sublist p).mem h1

/-- String-resolution errors on paren-free strings are lookup misses. -/
theorem parse_string_parenFree_err (fuel : Nat) (vm : VarMap) (fc : FuncCtx)
    (s : String) (hpf : parenFree s.toList) (e : PyErr)
    (he : parse_string (fuel + 1) s vm fc = .error e) :
    ∃ nm, e = .variableNotFound (.lookupMiss nm) := by
  rw [parse_string] at he
  cases hf : findDollarIdx s.toList with
  | none => rw [hf] at he; cases he
  | some i =>
    rw [hf] at he
    refine psLoopG_parenFree_err _ _ _ vm fc (s.toList.drop i).length _ _
      Nat.le.refl ?_ e he
    intro hm
    exact hpf ((List.drop_sublist i _).mem hm)

/-- A key satisfying `plainKeyC` resolves without failure to a hashable
value (a dollar-free string is returned as the stripped string, a scalar as
itself), so the dict rebuild's assignment accepts it. -/
theorem plainKey_eval (fuel : Nat) (vm : VarMap) (fc : FuncCtx) :
    ∀ k : Content, plainKeyC k →
      ∃ pk, parse_dataG (fun s => parse_string (fuel + 1) s vm fc) k =
          .ok pk ∧ isHashable pk = true
  | .str s, hk => by
    refine ⟨.str (pyStrip s), ?_, rfl⟩
    show parse_string (fuel + 1) (pyStrip s) vm fc = _
    refine parse_string_noDollar fuel (pyStrip s) vm fc ?_
    intro hm
    exact hk (pyStripBoth_mem isSpaceTab s.toList '$' hm)
  | .int n, _ => ⟨.int n, rfl, rfl⟩
  | .bool b, _ => ⟨.bool b, rfl, rfl⟩
  | .null, _ => ⟨.null, rfl, rfl⟩
  | .list _, hk => hk.elim
  | .tuple _, hk => hk.elim
  | .setv _, hk => hk.elim
  | .dict _, hk => hk.elim

mutual

/-- Structural-walk errors on paren-free, hash-safe content are lookup
misses: without a paren the function branch never fires, and with
self-resolving dict keys the rebuild's unhashable-key `TypeError` never
fires. -/
theorem parse_dataG_parenFree_err (fuel : Nat) (vm : VarMap) (fc : FuncCtx) :
    ∀ c, parenFreeContent c → hashSafeContent c →
      ∀ e, parse_dataG (fun s => parse_string (fuel + 1) s vm fc) c =
        .error e → ∃ nm, e = .variableNotFound (.lookupMiss nm)
  | .null, _, _, e, he => by cases he
  | .bool _, _, _, e, he => by cases he
  | .int _, _, _, e, he => by cases he
  | .str s, hp, _, e, he => by
    refine parse_string_parenFree_err fuel vm fc (pyStrip s) ?_ e he
    intro hm
    exact hp (pyStripBoth_mem isSpaceTab s.toList '(' hm)
  | .list xs, hp, hh, e, he => by
    simp only [parse_dataG] at he
    cases hg : parseDataGL (fun s => parse_string (fuel + 1) s vm fc) xs with
    | ok ys => rw [hg] at he; cases he
    | error e2 =>
      rw [hg] at he
      cases he
      exact parse_dataGL_parenFree_err fuel vm fc xs hp hh _ hg
  | .tuple xs, hp, hh, e, he => by
    simp only [parse_dataG] at he
    cases hg : parseDataGL (fun s => parse_string (fuel + 1) s vm fc) xs with
    | ok ys => rw [hg] at he; cases he
    | error e2 =>
      rw [hg] at he
      cases he
      exact parse_dataGL_parenFree_err fuel vm fc xs hp hh _ hg
  | .setv xs, hp, hh, e, he => by
    simp only [parse_dataG] at he
    cases hg : parseDataGL (fun s => parse_string (fuel + 1) s vm fc) xs with
    | ok ys => rw [hg] at he; cases he
    | error e2 =>
      rw [hg] at he
      cases he
      exact parse_dataGL_parenFree_err fuel vm fc xs hp hh _ hg
  | .dict kvs, hp, hh, e, he => by
    simp only [parse_dataG] at he
    cases hg : parseDataGD (fun s => parse_string (fuel + 1) s vm fc)
        kvs [] with
    | ok ys => rw [hg] at he; cases he
    | error e2 =>
      rw [hg] at he
      cases he
      exact parse_dataGD_parenFree_err fuel vm fc kvs hp hh [] _ hg

/-- Elementwise errors on paren-free, hash-safe sequences are lookup
misses. -/
theorem parse_dataGL_parenFree_err (fuel : Nat) (vm : VarMap) (fc : FuncCtx) :
    ∀ xs, parenFreeList xs → hashSafeList xs →
      ∀ e, parseDataGL (fun s => parse_string (fuel + 1) s vm fc) xs =
        .error e → ∃ nm, e = .variableNotFound (.lookupMiss nm)
  | [], _, _, e, he => by cases he
  | x :: xs, hp, hh, e, he => by
    obtain ⟨h1, h2⟩ := hp
    obtain ⟨hh1, hh2⟩ := hh
    simp only [parseDataGL] at he
    cases hx : parse_dataG (fun s => parse_string (fuel + 1) s vm fc) x with
    | error e2 =>
      rw [hx] at he
      cases he
      exact parse_dataG_parenFree_err fuel vm fc x h1 hh1 _ hx
    | ok y =>
      rw [hx] at he
      cases hxs : parseDataGL (fun s => parse_string (fuel + 1) s vm fc) xs with
      | error e2 =>
        rw [hxs] at he
        cases he
        exact parse_dataGL_parenFree_err fuel vm fc xs h2 hh2 _ hxs
      | ok ys => rw [hxs] at he; cases he

/-- Iteration errors on paren-free, hash-safe mapping items are lookup
misses: keys resolve without failure to hashable values, so only a value's
resolution can raise, and only with a lookup miss. -/
theorem parse_dataGD_parenFree_err (fuel : Nat) (vm : VarMap) (fc : FuncCtx) :
    ∀ kvs, parenFreePairs kvs → hashSafePairs kvs →
      ∀ (acc : List (Content × Content)) e,
        parseDataGD (fun s => parse_string (fuel + 1) s vm fc) kvs acc =
          .error e → ∃ nm, e = .variableNotFound (.lookupMiss nm)
  | [], _, _, acc, e, he => by cases he
  | (k, v) :: kvs, hp, hh, acc, e, he => by
    obtain ⟨h1, h2, h3⟩ := hp
    obtain ⟨hk1, hh2, hh3⟩ := hh
    obtain ⟨pk, hpk, hkh⟩ := plainKey_eval fuel vm fc k hk1
    simp only [parseDataGD] at he
    rw [hpk] at he
    dsimp only at he
    cases hv : parse_dataG (fun s => parse_string (fuel + 1) s vm fc) v with
    | error e2 =>
      rw [hv] at he
      cases he
      exact parse_dataG_parenFree_err fuel vm fc v h2 hh2 _ hv
    | ok pv =>
      rw [hv] at he
      dsimp only at he
      rw [show dictInsertC acc pk pv = .ok (pyDictInsert beqC acc pk pv) from
        by rw [dictInsertC, if_pos hkh]] at he
      exact parse_dataGD_parenFree_err fuel vm fc kvs h3 hh3 _ _ he

end

/-- Candidate-step errors under paren-free values are `VariableNotFound`
(self-reference, undefined-reference, or a lookup miss would have been
caught and deferred; non-variable failures cannot arise without a paren). -/
theorem processName_err_isVNF (vm : VarMap) (fc : FuncCtx) (fuel : Nat)
    (parsed : VarMap) (n : String) (v : Content)
    (hpf : parenFreeContent v) (hhs : hashSafeContent v) (e : PyErr)
    (he : processName vm fc (fuel + 1) parsed n v = .error e) :
    isVariableNotFound e = true := by
  rw [processName] at he
  by_cases h1 : (List.lookup n parsed).isSome
  · rw [if_pos h1] at he; cases he
  · rw [if_neg h1] at he
    dsimp only at he
    by_cases h2 : n ∈ extract_variables v
    · rw [if_pos h2] at he
      cases he
      rfl
    · rw [if_neg h2] at he
      by_cases h3 : (extract_variables v).filter
          (fun m => (List.lookup m vm).isNone) ≠ []
      · rw [if_pos h3] at he
        cases he
        rfl
      · rw [if_neg h3] at he
        cases hpd : parse_data (fuel + 1) v parsed fc with
        | ok pv => rw [hpd] at he; cases he
        | error e2 =>
          rw [hpd] at he
          obtain ⟨nm, rfl⟩ :=
            parse_dataG_parenFree_err fuel parsed fc v hpf hhs e2 hpd
          cases he

/-- A candidate that is not yet resolved and either references itself or has
a nonempty missing-reference filter makes the candidate step raise. -/
theorem processName_offender_err (vm : VarMap) (fc : FuncCtx) (fuel : Nat)
    (parsed : VarMap) (n : String) (v : Content)
    (hun : List.lookup n parsed = none)
    (hoff : n ∈ extract_variables v ∨
      (extract_variables v).filter (fun m => (List.lookup m vm).isNone) ≠ []) :
    ∃ e, processName vm fc fuel parsed n v = .error e := by
  rw [processName]
  rw [if_neg (by rw [hun]; simp)]
  dsimp only
  by_cases h2 : n ∈ extract_variables v
  · rw [if_pos h2]
    exact ⟨_, rfl⟩
  · rw [if_neg h2]
    have h3 : (extract_variables v).filter
        (fun m => (List.lookup m vm).isNone) ≠ [] := by
      rcases hoff with h | h
      · exact absurd h h2
      · exact h
    rw [if_pos h3]
    exact ⟨_, rfl⟩

/-- Candidate-step errors when the candidate does not reference itself carry
the undefined-names payload, namely the missing-reference filter of the
candidate's value. -/
theorem processName_err_noSelf (vm : VarMap) (fc : FuncCtx) (fuel : Nat)
    (parsed : VarMap) (n : String) (v : Content)
    (hpf : parenFreeContent v) (hhs : hashSafeContent v)
    (hns : n ∉ extract_variables v) (e : PyErr)
    (he : processName vm fc (fuel + 1) parsed n v = .error e) :
    e = .variableNotFound (.undefined ((extract_variables v).filter
      (fun m => (List.lookup m vm).isNone))) ∧
    (extract_variables v).filter (fun m => (List.lookup m vm).isNone) ≠ [] := by
  rw [processName] at he
  by_cases h1 : (List.lookup n parsed).isSome
  · rw [if_pos h1] at he; cases he
  · rw [if_neg h1] at he
    dsimp only at he
    rw [if_neg hns] at he
    by_cases h3 : (extract_variables v).filter
        (fun m => (List.lookup m vm).isNone) ≠ []
    · rw [if_pos h3] at he
      cases he
      exact ⟨rfl, h3⟩
    · rw [if_neg h3] at he
      cases hpd : parse_data (fuel + 1) v parsed fc with
      | ok pv => rw [hpd] at he; cases he
      | error e2 =>
        rw [hpd] at he
        obtain ⟨nm, rfl⟩ :=
          parse_dataG_parenFree_err fuel parsed fc v hpf hhs e2 hpd
        cases he

/-- A successful candidate step returns the table unchanged or with exactly
the candidate's name inserted. -/
theorem processName_ok_shape (vm : VarMap) (fc : FuncCtx) (fuel : Nat)
    (parsed : VarMap) (n : String) (v : Content) (parsed2 : VarMap)
    (hok : processName vm fc fuel parsed n v = .ok parsed2) :
    parsed2 = parsed ∨ ∃ pv, parsed2 = recInsert parsed n pv := by
  rw [processName] at hok
  by_cases h1 : (List.lookup n parsed).isSome
  · rw [if_pos h1] at hok
    cases hok
    exact Or.inl rfl
  · rw [if_neg h1] at hok
    dsimp only at hok
    by_cases h2 : n ∈ extract_variables v
    · rw [if_pos h2] at hok; cases hok
    · rw [if_neg h2] at hok
      by_cases h3 : (extract_variables v).filter
          (fun m => (List.lookup m vm).isNone) ≠ []
      · rw [if_pos h3] at hok; cases hok
      · rw [if_neg h3] at hok
        cases hpd : parse_data fuel v parsed fc with
        | ok pv =>
          rw [hpd] at hok
          cases hok
          exact Or.inr ⟨pv, rfl⟩
        | error e2 =>
          rw [hpd] at hok
          cases e2 with
          | variableNotFound i =>
            cases hok
            exact Or.inl rfl
          | functionNotFound nm => cases hok
          | paramsError m => cases hok
          | valueError m => cases hok
          | keyError k => cases hok
          | typeError m => cases hok
          | embedFuelOut => cases hok

/-- Python dict assignment of a different key preserves a lookup miss. -/
theorem recInsert_lookup_none (d : List (String × Content)) (k m : String)
    (v : Content) (hne : k ≠ m) (hk : List.lookup k d = none) :
    List.lookup k (recInsert d m v) = none := by
  have hkm : (k == m) = false := by
    simp only [beq_eq_false_iff_ne]
    exact hne
  have hmap : ∀ d' : List (String × Content), List.lookup k d' = none →
      List.lookup k (d'.map (fun p => if p.1 == m then (p.1, v) else p)) = none := by
    intro d'
    induction d' with
    | nil => intro _; rfl
    | cons p rest ih =>
      intro hk'
      obtain ⟨pk, pv⟩ := p
      cases hb : (k == pk) with
      | true =>
        exfalso
        simp only [List.lookup, hb] at hk'
        cases hk'
      | false =>
        simp only [List.lookup, hb] at hk'
        simp only [List.map_cons]
        cases hbm : (pk == m) with
        | true =>
          simp only [hbm, if_true, List.lookup, hb]
          exact ih hk'
        | false =>
          simp only [hbm, Bool.false_eq_true, if_false, List.lookup, hb]
          exact ih hk'
  rw [recInsert, pyDictInsert]
  split
  · exact hmap d hk
  · rw [List.lookup_append, hk]
    simp [List.lookup, hkm]

/-- Pass errors under paren-free values are `VariableNotFound`. -/
theorem passAux_err_isVNF (vm : VarMap) (fc : FuncCtx) (fuel : Nat)
    (l : List (String × Content)) (parsed : VarMap)
    (hpf : ∀ p ∈ l, parenFreeContent p.2)
    (hhs : ∀ p ∈ l, hashSafeContent p.2) (e : PyErr)
    (he : passAux vm fc (fuel + 1) l parsed = .error e) :
    isVariableNotFound e = true := by
  induction l generalizing parsed with
  | nil => rw [passAux] at he; cases he
  | cons p rest ih =>
    obtain ⟨n, v⟩ := p
    rw [passAux] at he
    cases hpn : processName vm fc (fuel + 1) parsed n v with
    | error e2 =>
      rw [hpn] at he
      have he2 : (Except.error e2 : Except PyErr VarMap) = .error e := he
      cases he2
      exact processName_err_isVNF vm fc fuel parsed n v
        (hpf (n, v) (List.mem_cons_self _ _))
        (hhs (n, v) (List.mem_cons_self _ _)) _ hpn
    | ok parsed1 =>
      rw [hpn] at he
      exact ih parsed1 (fun q hq => hpf q (List.mem_cons_of_mem _ hq))
        (fun q hq => hhs q (List.mem_cons_of_mem _ hq)) he

/-- A pass that still has an unresolved offending candidate ahead of it (one
that references itself or has a nonempty missing-reference filter against
the original mapping) raises; with unique names, earlier candidates cannot
resolve the offender on its behalf. -/
theorem passAux_offender (vm : VarMap) (fc : FuncCtx) (fuel : Nat)
    (l : List (String × Content)) (parsed : VarMap)
    (hnd : (l.map Prod.fst).Nodup) (n0 : String) (v0 : Content)
    (hmem : (n0, v0) ∈ l) (hun : List.lookup n0 parsed = none)
    (hoff : n0 ∈ extract_variables v0 ∨
      (extract_variables v0).filter (fun m => (List.lookup m vm).isNone) ≠ []) :
    ∃ e, passAux vm fc fuel l parsed = .error e := by
  induction l generalizing parsed with
  | nil => cases hmem
  | cons p rest ih =>
    obtain ⟨n, v⟩ := p
    rw [passAux]
    cases hpn : processName vm fc fuel parsed n v with
    | error e => exact ⟨e, rfl⟩
    | ok parsed1 =>
      rcases List.mem_cons.1 hmem with hhd | htl
      · obtain ⟨rfl, rfl⟩ : n0 = n ∧ v0 = v := by
          injection hhd with h1 h2
          exact ⟨h1, h2⟩
        obtain ⟨e, he⟩ := processName_offender_err vm fc fuel parsed n0 v0 hun hoff
        rw [hpn] at he
        cases he
      · have hne : n0 ≠ n := by
          intro hz
          subst hz
          exact (List.nodup_cons.1 hnd).1
            (List.mem_map.2 ⟨(n0, v0), htl, rfl⟩)
        have hun1 : List.lookup n0 parsed1 = none := by
          rcases processName_ok_shape vm fc fuel parsed n v parsed1 hpn with
            rfl | ⟨pv, rfl⟩
          · exact hun
          · exact recInsert_lookup_none parsed n0 n pv hne hun
        obtain ⟨e, he⟩ := ih parsed1 (List.nodup_cons.1 hnd).2 htl hun1
        exact ⟨e, he⟩

/-- Pass errors when no candidate references itself carry the
undefined-names payload of one of the candidates. -/
theorem passAux_err_payload (vm : VarMap) (fc : FuncCtx) (fuel : Nat)
    (l : List (String × Content)) (parsed : VarMap)
    (hpf : ∀ p ∈ l, parenFreeContent p.2)
    (hhs : ∀ p ∈ l, hashSafeContent p.2)
    (hns : ∀ p ∈ l, p.1 ∉ extract_variables p.2) (e : PyErr)
    (he : passAux vm fc (fuel + 1) l parsed = .error e) :
    ∃ p ∈ l, e = .variableNotFound (.undefined ((extract_variables p.2).filter
        (fun m => (List.lookup m vm).isNone))) ∧
      (extract_variables p.2).filter (fun m => (List.lookup m vm).isNone) ≠ [] := by
  induction l generalizing parsed with
  | nil => rw [passAux] at he; cases he
  | cons p rest ih =>
    obtain ⟨n, v⟩ := p
    rw [passAux] at he
    cases hpn : processName vm fc (fuel + 1) parsed n v with
    | error e2 =>
      rw [hpn] at he
      have he2 : (Except.error e2 : Except PyErr VarMap) = .error e := he
      cases he2
      obtain ⟨h1, h2⟩ := processName_err_noSelf vm fc fuel parsed n v
        (hpf (n, v) (List.mem_cons_self _ _))
        (hhs (n, v) (List.mem_cons_self _ _))
        (hns (n, v) (List.mem_cons_self _ _)) _ hpn
      exact ⟨(n, v), List.mem_cons_self _ _, h1, h2⟩
    | ok parsed1 =>
      rw [hpn] at he
      obtain ⟨q, hq, h1, h2⟩ := ih parsed1
        (fun q hq => hpf q (List.mem_cons_of_mem _ hq))
        (fun q hq => hhs q (List.mem_cons_of_mem _ hq))
        (fun q hq => hns q (List.mem_cons_of_mem _ hq)) he
      exact ⟨q, List.mem_cons_of_mem _ hq, h1, h2⟩

/-- Any error of the fixed-point loop is the error of some full pass over
the whole mapping (from some intermediate resolved table). -/
theorem pvmLoop_err (vm : VarMap) (fc : FuncCtx) (fuel : Nat)
    (passes : Nat) (parsed : VarMap) (e : PyErr)
    (he : pvmLoop vm fc fuel passes parsed = .error e) :
    ∃ parsed1, passAux vm fc fuel vm parsed1 = .error e := by
  induction passes generalizing parsed with
  | zero => cases he
  | succ k ih =>
    rw [pvmLoop] at he
    by_cases hlen : parsed.length = vm.length
    · rw [if_pos hlen] at he
      cases he
    · rw [if_neg hlen] at he
      cases hpa : passAux vm fc fuel vm parsed with
      | error e2 =>
        rw [hpa] at he
        have he2 : (Except.error e2 : Except PyErr (Option VarMap)) =
            .error e := he
        cases he2
        exact ⟨parsed, hpa⟩
      | ok parsed1 =>
        rw [hpa] at he
        exact ih parsed1 he

/-- C3, amended: restricted to mappings whose values are paren-free (so no
entry embeds a function-call notation, whose failures the loop does not
catch) and hash-safe (so no dict key inside a value resolves to an
unhashable value, whose `TypeError` the loop does not catch either), every
failure of `parse_variables_mapping` is a `VariableNotFound`; such a
mapping with unique names holding an offending entry - one referencing its
own name or referencing a name absent from the original mapping - always
fails with `VariableNotFound` when given at least one pass; and when no
entry references itself the payload is the undefined-names collection of
some entry, nonempty and holding exactly the entry's references that are
absent from the original mapping (the source builds it as a Python set, so
only its membership is specified).  The unrestricted claim is refuted: a
failing function call inside one entry escapes as `FunctionNotFound` even
when another entry references itself. -/
theorem claim_C3_amended :
    (∀ (vm : VarMap) (fc : FuncCtx) (fuel passes : Nat),
      (∀ p ∈ vm, parenFreeContent p.2) →
      (∀ p ∈ vm, hashSafeContent p.2) →
      ∀ e, parse_variables_mapping passes (fuel + 1) vm fc = .error e →
        isVariableNotFound e = true) ∧
    (∀ (vm : VarMap) (fc : FuncCtx) (fuel passes : Nat),
      (∀ p ∈ vm, parenFreeContent p.2) →
      (∀ p ∈ vm, hashSafeContent p.2) →
      (vm.map Prod.fst).Nodup →
      (∃ p ∈ vm, p.1 ∈ extract_variables p.2 ∨
        (extract_variables p.2).filter
          (fun m => (List.lookup m vm).isNone) ≠ []) →
      ∃ i, parse_variables_mapping (passes + 1) (fuel + 1) vm fc =
        .error (.variableNotFound i)) ∧
    (∀ (vm : VarMap) (fc : FuncCtx) (fuel passes : Nat),
      (∀ p ∈ vm, parenFreeContent p.2) →
      (∀ p ∈ vm, hashSafeContent p.2) →
      (∀ p ∈ vm, p.1 ∉ extract_variables p.2) →
      ∀ e, parse_variables_mapping passes (fuel + 1) vm fc = .error e →
        ∃ p ∈ vm, ∃ miss,
          e = .variableNotFound (.undefined miss) ∧ miss ≠ [] ∧
          ∀ m, m ∈ miss ↔
            (m ∈ extract_variables p.2 ∧ List.lookup m vm = none)) := by
  refine ⟨?_, ?_, ?_⟩
  · intro vm fc fuel passes hpf hhs e he
    obtain ⟨parsed1, hpa⟩ := pvmLoop_err vm fc (fuel + 1) passes [] e he
    exact passAux_err_isVNF vm fc fuel vm parsed1 hpf hhs e hpa
  · intro vm fc fuel passes hpf hhs hnd hoff
    obtain ⟨⟨n0, v0⟩, hmem, hoff0⟩ := hoff
    have hlen : ¬([] : VarMap).length = vm.length := by
      intro hz
      rw [List.eq_nil_of_length_eq_zero hz.symm] at hmem
      cases hmem
    obtain ⟨e, he⟩ := passAux_offender vm fc (fuel + 1) vm []
      hnd n0 v0 hmem rfl hoff0
    have hrun : parse_variables_mapping (passes + 1) (fuel + 1) vm fc =
        .error e := by
      show pvmLoop vm fc (fuel + 1) (passes + 1) [] = .error e
      rw [pvmLoop, if_neg hlen, he]
      rfl
    have hvnf := passAux_err_isVNF vm fc fuel vm [] hpf hhs e he
    cases e with
    | variableNotFound i => exact ⟨i, hrun⟩
    | _ => cases hvnf
  · intro vm fc fuel passes hpf hhs hns e he
    obtain ⟨parsed1, hpa⟩ := pvmLoop_err vm fc (fuel + 1) passes [] e he
    obtain ⟨p, hp, h1, h2⟩ :=
      passAux_err_payload vm fc fuel vm parsed1 hpf hhs hns e hpa
    refine ⟨p, hp,
      (extract_variables p.2).filter (fun m => (List.lookup m vm).isNone),
      h1, h2, ?_⟩
    intro m
    rw [List.mem_filter]
    simp [Option.isNone_iff_eq_none]

/-- The dict rebuild's unhashable-key error path: a mapping key that
resolves to a list makes `parse_data` raise `TypeError`, which is not a
`VariableNotFound` (so `parse_variables_mapping`'s catch clause would
re-raise it); the hash-safety hypothesis of the amended C3 exists to
exclude exactly this. -/
theorem dict_key_unhashable_typeError (fuel : Nat) :
    parse_data (fuel + 1) (.dict [(.str "$k", .int 1)])
      [("k", .list [])] fcEmpty = .error (.typeError "unhashable type") ∧
    isVariableNotFound (.typeError "unhashable type") = false := by
  constructor
  · show parse_dataG _ (.dict [(.str "$k", .int 1)]) = _
    simp only [parse_dataG, parseDataGD]
    have hk : parse_string (fuel + 1) (pyStrip "$k") [("k", Content.list [])]
        fcEmpty = .ok (.list []) := by
      rw [show pyStrip "$k" = ⟨'$' :: ['k']⟩ from rfl]
      rw [parse_string_bareVar fuel ['k'] [("k", .list [])] fcEmpty
        (by decide) (by decide)]
      rfl
    rw [hk]
    rfl
  · rfl

/-- C3 witness: the single-entry self-referencing mapping, whose value is
paren-free and hash-safe, fails with `VariableNotFound` in one pass. -/
theorem claim_C3_witness :
    ∃ i, parse_variables_mapping 1 1 [("b", Content.str "$b")] fcEmpty =
      .error (.variableNotFound i) :=
  claim_C3_amended.2.1 [("b", Content.str "$b")] fcEmpty 0 0
    (by
      intro p hp
      rw [List.mem_singleton] at hp
      subst hp
      show (Char.ofNat 40) ∉ String.toList "$b"
      decide)
    (by
      intro p hp
      rw [List.mem_singleton] at hp
      subst hp
      trivial)
    (by decide)
    ⟨("b", Content.str "$b"), List.mem_singleton.2 rfl,
      Or.inl (by
        rw [show extract_variables (Content.str "$b") = ["b"] from by
          simp +decide [extract_variables, regex_findall_variables,
            findDollarIdx, rfvLoop]]
        exact List.mem_singleton.2 rfl)⟩

/-- The offending first candidate of the C3 counterexample: its value calls
an unknown function, referenced variables are none, so resolution raises
`FunctionNotFound`, which the candidate step re-raises. -/
theorem cex_processName_a :
    processName cexMapC3 fcEmpty 1 [] "a" (.str "${nosuchfunc()}") =
      .error (.functionNotFound "nosuchfunc") := by
  rw [processName]
  rw [show extract_variables (.str "${nosuchfunc()}") = [] from by
    simp +decide [extract_variables, regex_findall_variables, findDollarIdx,
      rfvLoop]]
  have hpd : parse_data 1 (.str "${nosuchfunc()}") [] fcEmpty =
      .error (.functionNotFound "nosuchfunc") := by
    show parse_string 1 (pyStrip "${nosuchfunc()}") [] fcEmpty = _
    rw [show pyStrip "${nosuchfunc()}" =
      ⟨'$' :: '{' ::
        ['n', 'o', 's', 'u', 'c', 'h', 'f', 'u', 'n', 'c', '(', ')', '}']⟩
      from rfl]
    rw [show (1 : Nat) = 0 + 1 from rfl, parse_string, toList_mk]
    rw [show findDollarIdx ('$' :: '{' ::
        ['n', 'o', 's', 'u', 'c', 'h', 'f', 'u', 'n', 'c', '(', ')', '}'])
      = some 0 from rfl]
    dsimp only
    simp only [List.drop_zero, List.take_zero]
    rw [psLoopG_func _ _ _ _ _
      ['n', 'o', 's', 'u', 'c', 'h', 'f', 'u', 'n', 'c', '(', ')', '}']
      [')', '}'] [] [] ['n', 'o', 's', 'u', 'c', 'h', 'f', 'u', 'n', 'c'] []
      rfl rfl (by decide) rfl rfl]
    rfl
  simp +decide [List.lookup, hpd]

/-- C3 counterexample: the unrestricted claim fails - on a mapping whose
second entry references its own name, the run raises `FunctionNotFound`
(from the unknown function call in the first entry), not
`VariableNotFound`. -/
theorem claim_C3_counterexample :
    parse_variables_mapping 1 1 cexMapC3 fcEmpty =
      .error (.functionNotFound "nosuchfunc") ∧
    ("b", Content.str "$b") ∈ cexMapC3 ∧
    "b" ∈ extract_variables (Content.str "$b") ∧
    isVariableNotFound (.functionNotFound "nosuchfunc") = false := by
  refine ⟨?_, ?_, ?_, rfl⟩
  · show pvmLoop cexMapC3 fcEmpty 1 1 [] = _
    rw [pvmLoop, if_neg (by decide)]
    have hpa : passAux cexMapC3 fcEmpty 1 cexMapC3 [] =
        .error (.functionNotFound "nosuchfunc") := by
      show passAux cexMapC3 fcEmpty 1
        [("a", .str "${nosuchfunc()}"), ("b", .str "$b")] [] = _
      rw [passAux, cex_processName_a]
      rfl
    rw [hpa]
    rfl
  · exact List.Mem.tail _ (List.Mem.head _)
  · rw [show extract_variables (Content.str "$b") = ["b"] from by
      simp +decide [extract_variables, regex_findall_variables,
        findDollarIdx, rfvLoop]]
    exact List.mem_singleton.2 rfl

/-- A fold of Python dict assignments whose keys are fresh (absent from the
accumulator and mutually distinct) is a plain append. -/
theorem foldl_recInsert_append (l : List (String × Content)) :
    ∀ d : PRec, (∀ p ∈ l, ∀ q ∈ d, p.1 ≠ q.1) → (l.map Prod.fst).Nodup →
      l.foldl (fun d kv => recInsert d kv.1 kv.2) d = d ++ l := by
  induction l with
  | nil =>
    intro d _ _
    simp
  | cons p rest ih =>
    intro d hdisj hnd
    obtain ⟨k, v⟩ := p
    rw [List.foldl_cons]
    have hins : recInsert d k v = d ++ [(k, v)] := by
      rw [recInsert, pyDictInsert]
      rw [if_neg ?hc]
      case hc =>
        rw [Bool.not_eq_true, List.any_eq_false]
        intro q hq hz
        have hz2 : q.1 = k := by simpa using hz
        exact hdisj (k, v) (List.mem_cons_self _ _) q hq hz2.symm
    rw [hins]
    rw [ih (d ++ [(k, v)]) ?hd ?hn]
    · rw [List.append_assoc, List.singleton_append]
    case hd =>
      intro p hp q hq
      rcases List.mem_append.1 hq with hq1 | hq2
      · exact hdisj p (List.mem_cons_of_mem _ hp) q hq1
      · rw [List.mem_singleton.1 hq2]
        intro hz
        exact (List.nodup_cons.1 hnd).1
          (List.mem_map.2 ⟨p, hp, hz⟩)
    case hn => exact (List.nodup_cons.1 hnd).2

/-- The first components of a truncating zip are the shorter prefix of the
first list. -/
theorem zip_map_fst {α β : Type} :
    ∀ (names : List α) (vals : List β),
      (names.zip vals).map Prod.fst = names.take vals.length
  | [], _ => by simp
  | _ :: _, [] => rfl
  | n :: ns, v :: vs => by
    simp only [List.zip_cons_cons, List.map_cons, List.length_cons,
      List.take_succ_cons]
    rw [zip_map_fst ns vs]

/-- With distinct field names, Python `dict(zip(names, values))` is exactly
the truncating zip as an ordered record. -/
theorem dictOfZip_eq_zip (names : List String) (vals : List Content)
    (hnd : names.Nodup) : dictOfZip names vals = names.zip vals := by
  rw [dictOfZip]
  rw [foldl_recInsert_append (names.zip vals) []
    (fun p _ q hq => absurd hq (List.not_mem_nil q)) ?hn]
  · simp
  case hn =>
    rw [zip_map_fst]
    exact hnd.sublist (List.take_sublist _ _)

/-- The cartesian product of a single record list is that list. -/
theorem gcp_singleton (l : List PRec) : gen_cartesian_product [l] = l := by
  rw [gen_cartesian_product]
  induction l with
  | nil => rfl
  | cons r rest ih =>
    rw [List.flatMap_cons, ih]
    rfl

/-- C7: the literal-sequence branch wraps non-sequence elements, zips each
wrapped element against the dash-split field names, builds one record
per element and never raises; with distinct field names the record is the
truncating zip itself, so excess field names are absent and excess values
are dropped. -/
theorem claim_C7_literal_wrap_zip_truncation :
    (∀ (fuel : Nat) (fc : FuncCtx) (pname : String) (items : List Content),
      buildOne fuel fc pname (.list items) =
        .ok (items.map (fun item =>
          dictOfZip (dashNames pname) (wrapItem item))) ∧
      parse_parameters fuel [(pname, .list items)] fc =
        .ok (items.map (fun item =>
          dictOfZip (dashNames pname) (wrapItem item)))) ∧
    (∀ xs, wrapItem (.list xs) = xs ∧ wrapItem (.tuple xs) = xs) ∧
    (∀ c : Content, (∀ xs, c ≠ .list xs ∧ c ≠ .tuple xs) →
      wrapItem c = [c]) ∧
    (∀ (names : List String) (vals : List Content), names.Nodup →
      dictOfZip names vals = names.zip vals ∧
      (dictOfZip names vals).map Prod.fst = names.take vals.length) := by
  refine ⟨?_, ?_, ?_, ?_⟩
  · intro fuel fc pname items
    have hb : buildOne fuel fc pname (.list items) =
        .ok (items.map (fun item =>
          dictOfZip (dashNames pname) (wrapItem item))) := rfl
    refine ⟨hb, ?_⟩
    show (Except.ok (gen_cartesian_product
      [items.map (fun item => dictOfZip (dashNames pname) (wrapItem item))]) :
        Except PyErr (List PRec)) = _
    rw [gcp_singleton]
  · intro xs
    exact ⟨rfl, rfl⟩
  · intro c hc
    cases c with
    | list xs => exact absurd rfl (hc xs).1
    | tuple xs => exact absurd rfl (hc xs).2
    | null => rfl
    | bool b => rfl
    | int n => rfl
    | str s => rfl
    | setv xs => rfl
    | dict kvs => rfl
  · intro names vals hnd
    refine ⟨dictOfZip_eq_zip names vals hnd, ?_⟩
    rw [dictOfZip_eq_zip names vals hnd, zip_map_fst]

/-- C7 witness: a non-sequence element is wrapped, and a three-name,
two-value zip keeps the two pairs and drops the third name. -/
theorem claim_C7_witness :
    wrapItem (.int 7) = [.int 7] ∧
    dictOfZip ["a", "b", "c"] [.int 1, .int 2] =
      [("a", Content.int 1), ("b", Content.int 2)] ∧
    (dictOfZip ["a", "b", "c"] [.int 1, .int 2]).map Prod.fst = ["a", "b"] := by
  refine ⟨?_, ?_, ?_⟩
  · exact claim_C7_literal_wrap_zip_truncation.2.2.1 (.int 7)
      (fun xs => ⟨(fun h => Content.noConfusion h),
        (fun h => Content.noConfusion h)⟩)
  · rw [(claim_C7_literal_wrap_zip_truncation.2.2.2 ["a", "b", "c"]
      [.int 1, .int 2] (by decide)).1]
    rfl
  · rw [(claim_C7_literal_wrap_zip_truncation.2.2.2 ["a", "b", "c"]
      [.int 1, .int 2] (by decide)).2]
    rfl

/-- The product size distributes over the leading spec. -/
theorem prodLen_cons (l : List PRec) (rest : List (List PRec)) :
    prodLen (l :: rest) = l.length * prodLen rest := by
  rw [prodLen, List.map_cons, List.prod_cons]
  rfl

/-- The cartesian product has as many records as the product of the
per-spec list sizes. -/
theorem gcp_length (ls : List (List PRec)) :
    (gen_cartesian_product ls).length = prodLen ls := by
  induction ls with
  | nil => rfl
  | cons l rest ih =>
    rw [gen_cartesian_product]
    have h : ∀ l2 : List PRec,
        (l2.flatMap (fun r => (gen_cartesian_product rest).map
          (fun t => mergeRec r t))).length = l2.length * prodLen rest := by
      intro l2
      induction l2 with
      | nil => simp
      | cons r l3 ihl =>
        rw [List.flatMap_cons, List.length_append, List.length_map, ihl, ih]
        rw [List.length_cons]
        ring
    rw [h l, prodLen_cons]

/-- Indexing a concatenation of equal-length blocks is mixed-radix: block
index by division, offset by remainder. -/
theorem flatMap_blocks_getElem (g : PRec → List PRec) (B : Nat)
    (hg : ∀ r, (g r).length = B) :
    ∀ (l : List PRec) (i : Nat), i < l.length * B →
      (l.flatMap g)[i]? = (g (l.getD (i / B) []))[i % B]? := by
  intro l
  induction l with
  | nil =>
    intro i hi
    rw [List.length_nil, Nat.zero_mul] at hi
    exact absurd hi (Nat.not_lt_zero i)
  | cons r rest ih =>
    intro i hi
    have hB : 0 < B := by
      rcases Nat.eq_zero_or_pos B with hB0 | hB0
      · rw [hB0, Nat.mul_zero] at hi
        exact absurd hi (Nat.not_lt_zero i)
      · exact hB0
    rw [List.flatMap_cons]
    rw [List.getElem?_append]
    by_cases hiB : i < B
    · rw [if_pos (by rw [hg r]; exact hiB)]
      rw [Nat.div_eq_of_lt hiB, Nat.mod_eq_of_lt hiB]
      rfl
    · push_neg at hiB
      rw [if_neg (by rw [hg r]; exact Nat.not_lt.2 hiB)]
      rw [hg r]
      have hi2 : i - B < rest.length * B := by
        have hs : (r :: rest).length * B = rest.length * B + B := by
          rw [List.length_cons, Nat.succ_mul]
        omega
      rw [ih (i - B) hi2]
      rw [Nat.div_eq_sub_div hB hiB, Nat.mod_eq_sub_mod hiB]
      rw [List.getD_cons_succ]

/-- The record at index `i` of the cartesian product merges, spec by spec,
the picks given by the mixed-radix digits of `i`, the earliest-declared
spec varying slowest. -/
theorem gcp_getElem (ls : List (List PRec)) :
    ∀ i, i < prodLen ls →
      (gen_cartesian_product ls)[i]? = some (productRecordAt ls i) := by
  induction ls with
  | nil =>
    intro i hi
    have h1 : prodLen ([] : List (List PRec)) = 1 := rfl
    have h0 : i = 0 := by omega
    subst h0
    rfl
  | cons l rest ih =>
    intro i hi
    have hlen : i < l.length * prodLen rest := by
      rw [prodLen_cons] at hi
      exact hi
    have hB : 0 < prodLen rest := by
      rcases Nat.eq_zero_or_pos (prodLen rest) with hB0 | hB0
      · rw [hB0, Nat.mul_zero] at hlen
        exact absurd hlen (Nat.not_lt_zero i)
      · exact hB0
    rw [gen_cartesian_product]
    rw [flatMap_blocks_getElem _ (prodLen rest)
      (fun r => by rw [List.length_map, gcp_length]) l i hlen]
    rw [List.getElem?_map, ih (i % prodLen rest) (Nat.mod_lt _ hB)]
    rw [productRecordAt]
    rfl

/-- Records of the cartesian product concatenate one pick per spec: under
per-spec key specifications whose concatenation is duplicate-free, every
product record's key list is that concatenation (the union with no
collisions). -/
theorem gcp_record_keys (ls : List (List PRec)) (ks : List (List String))
    (hF : List.Forall₂ (fun l names => ∀ r ∈ l, r.map Prod.fst = names) ls ks)
    (hnd : ks.flatten.Nodup) :
    ∀ r ∈ gen_cartesian_product ls, r.map Prod.fst = ks.flatten := by
  induction hF with
  | nil =>
    intro r hr
    rw [gen_cartesian_product] at hr
    rw [List.mem_singleton.1 hr]
    rfl
  | cons h1 h2 ih =>
    rename_i l names ls2 ks2
    intro r hr
    rw [gen_cartesian_product] at hr
    obtain ⟨a, ha, hr2⟩ := List.mem_flatMap.1 hr
    obtain ⟨t, ht, rfl⟩ := List.mem_map.1 hr2
    rw [List.flatten_cons] at hnd ⊢
    have hnd2 := List.nodup_append.1 hnd
    have hkt : t.map Prod.fst = ks2.flatten := ih hnd2.2.1 t ht
    have hka : a.map Prod.fst = names := h1 a ha
    have hmerge : mergeRec a t = a ++ t := by
      rw [mergeRec]
      refine foldl_recInsert_append t a ?_ ?_
      · intro p hp q hq hz
        have hp1 : p.1 ∈ ks2.flatten := by
          rw [← hkt]
          exact List.mem_map.2 ⟨p, hp, rfl⟩
        have hq1 : q.1 ∈ names := by
          rw [← hka]
          exact List.mem_map.2 ⟨q, hq, rfl⟩
        rw [hz] at hp1
        exact hnd2.2.2 hq1 hp1
      · rw [hkt]
        exact hnd2.2.1
    rw [hmerge, List.map_append, hka, hkt]

/-- The mapping over all-literal parameter entries resolves to the literal
record lists. -/
theorem mapM_buildOne_lit (fuel : Nat) (fc : FuncCtx)
    (params : List (String × Content))
    (hlit : ∀ p ∈ params, ∃ items, p.2 = Content.list items) :
    params.mapM (fun p => buildOne fuel fc p.1 p.2) =
      .ok (params.map litRecords) := by
  induction params with
  | nil => rfl
  | cons p ps ih =>
    obtain ⟨items, hit⟩ := hlit p (List.mem_cons_self _ _)
    obtain ⟨nm, c⟩ := p
    dsimp only at hit
    subst hit
    rw [List.mapM_cons]
    rw [show buildOne fuel fc nm (.list items) =
      .ok (litRecords (nm, .list items)) from rfl]
    rw [ih (fun q hq => hlit q (List.mem_cons_of_mem _ hq))]
    rfl

/-- C6: the cartesian product of the per-spec record lists has exactly the
product of the per-spec sizes as cardinality; its record at index `i` is
the mixed-radix merge of one pick per spec with the earliest-declared
parameter varying slowest; under duplicate-free per-spec key lists every
record carries the union (concatenation) of all field names with no key
collisions; and on all-literal parameter entries `parse_parameters`
returns exactly this cartesian product of the per-entry record lists. -/
theorem claim_C6_cartesian_product :
    (∀ ls : List (List PRec),
      (gen_cartesian_product ls).length = prodLen ls) ∧
    (∀ (ls : List (List PRec)) (i : Nat), i < prodLen ls →
      (gen_cartesian_product ls)[i]? = some (productRecordAt ls i)) ∧
    (∀ (ls : List (List PRec)) (ks : List (List String)),
      List.Forall₂ (fun l names => ∀ r ∈ l, r.map Prod.fst = names) ls ks →
      ks.flatten.Nodup →
      ∀ r ∈ gen_cartesian_product ls, r.map Prod.fst = ks.flatten) ∧
    (∀ (fuel : Nat) (fc : FuncCtx) (params : List (String × Content)),
      (∀ p ∈ params, ∃ items, p.2 = Content.list items) →
      parse_parameters fuel params fc =
        .ok (gen_cartesian_product (params.map litRecords))) := by
  refine ⟨gcp_length, gcp_getElem, gcp_record_keys, ?_⟩
  intro fuel fc params hlit
  simp only [parse_parameters]
  rw [mapM_buildOne_lit fuel fc params hlit]
  rfl

/-- C6 witness: a two-by-one product - the record at index 1 is the
mixed-radix merge, the merged record's keys are the concatenated names,
and `parse_parameters` on the corresponding literal entries returns the
product. -/
theorem claim_C6_witness :
    (gen_cartesian_product [[[("a", Content.int 1)], [("a", Content.int 2)]],
        [[("b", Content.int 3)]]])[1]? =
      some (productRecordAt [[[("a", Content.int 1)], [("a", Content.int 2)]],
        [[("b", Content.int 3)]]] 1) ∧
    ([("a", Content.int 1), ("b", Content.int 3)] : PRec).map Prod.fst =
      [["a"], ["b"]].flatten ∧
    parse_parameters 1 [("a", Content.list [Content.int 1, Content.int 2]),
        ("b", Content.list [Content.int 3])] fcEmpty =
      .ok (gen_cartesian_product
        ([("a", Content.list [Content.int 1, Content.int 2]),
          ("b", Content.list [Content.int 3])].map litRecords)) := by
  refine ⟨claim_C6_cartesian_product.2.1 _ 1 (by decide),
    claim_C6_cartesian_product.2.2.1
      [[[("a", Content.int 1)], [("a", Content.int 2)]],
        [[("b", Content.int 3)]]] [["a"], ["b"]] ?_ (by decide)
      [("a", Content.int 1), ("b", Content.int 3)] ?_,
    claim_C6_cartesian_product.2.2.2 1 fcEmpty _ ?_⟩
  · refine List.Forall₂.cons ?_ (List.Forall₂.cons ?_ List.Forall₂.nil)
    · intro r hr
      rcases List.mem_cons.1 hr with rfl | hr2
      · rfl
      · rcases List.mem_cons.1 hr2 with rfl | hr3
        · rfl
        · cases hr3
    · intro r hr
      rcases List.mem_cons.1 hr with rfl | hr2
      · rfl
      · cases hr2
  · exact List.Mem.head _
  · intro p hp
    rcases List.mem_cons.1 hp with rfl | hp2
    · exact ⟨[Content.int 1, Content.int 2], rfl⟩
    · rcases List.mem_cons.1 hp2 with rfl | hp3
      · exact ⟨[Content.int 3], rfl⟩
      · cases hp3

/-- The state-threaded variable lookup returns the pure lookup and the
state unchanged. -/
theorem gmvS_eq (n : String) (st : VarMap × FuncCtx) :
    get_mapping_variableS n st = (get_mapping_variable n st.1, st) := by
  rw [get_mapping_variableS, get_mapping_variable]
  cases List.lookup n st.1 <;> rfl

/-- The state-threaded function resolution returns the pure resolution and
the state unchanged. -/
theorem gmfS_eq (n : String) (st : VarMap × FuncCtx) :
    get_mapping_functionS n st = (get_mapping_function n st.2, st) := by
  rw [get_mapping_functionS, get_mapping_function]
  cases List.lookup n st.2.user with
  | some f => rfl
  | none =>
    by_cases h1 : n = "parameterize" ∨ n = "P"
    · rw [if_pos h1, if_pos h1]
    · rw [if_neg h1, if_neg h1]
      by_cases h2 : n = "environ" ∨ n = "ENV"
      · rw [if_pos h2, if_pos h2]
      · rw [if_neg h2, if_neg h2]
        by_cases h3 : n = "multipart_encoder"
        · rw [if_pos h3, if_pos h3]
        · rw [if_neg h3, if_neg h3]
          by_cases h4 : n = "multipart_content_type"
          · rw [if_pos h4, if_pos h4]
          · rw [if_neg h4, if_neg h4]
            cases List.lookup n st.2.builtinRegistry with
            | some g => rfl
            | none => cases List.lookup n st.2.pyBuiltins <;> rfl

/-- The state-threaded scanning loop hands the caller's tables back
unchanged whenever its argument resolvers do. -/
theorem psLoopS_state (pdLS) (pdDS) (raw : List Char)
    (hL : ∀ l st, (pdLS l st).2 = st)
    (hD : ∀ l st, (pdDS l st).2 = st) :
    ∀ (n : Nat) (suffix acc : List Char) (st : VarMap × FuncCtx),
      suffix.length ≤ n → (psLoopS pdLS pdDS raw suffix acc st).2 = st := by
  intro n
  induction n with
  | zero =>
    intro suffix acc st hlen
    have hnil : suffix = [] := List.length_eq_zero.mp (Nat.le_zero.mp hlen)
    subst hnil
    rw [psLoopS.eq_def]
  | succ n ih =>
    intro suffix acc st hlen
    rw [psLoopS.eq_def]
    split
    · rfl
    · rename_i rest
      refine ih rest _ st ?_
      simp only [List.length_cons] at hlen
      omega
    · rename_i u1 u2 R
      simp only [List.length_cons] at hlen
      split
      · rename_i r1 heq
        by_cases hw : List.takeWhile isWordChar R = []
        · rw [if_pos hw]
          split
          · rename_i j hj
            refine ih _ _ st ?_
            have hd := List.length_drop j ('{' :: R)
            simp only [List.length_cons] at hd ⊢
            omega
          · rfl
        · rw [if_neg hw]
          split
          · rename_i tail heq1
            rw [gmfS_eq]
            cases hgf : get_mapping_function ⟨List.takeWhile isWordChar R⟩ st.2 with
            | error e => rfl
            | ok f =>
              dsimp only
              cases hpp : parse_function_params ⟨List.takeWhile isArgChar r1⟩ with
              | error e => rfl
              | ok meta =>
                dsimp only
                have h2 := hL meta.args st
                cases hargs : pdLS meta.args st with
                | mk resa st2 =>
                  rw [hargs] at h2
                  dsimp only at h2
                  rw [h2]
                  cases resa with
                  | error e => rfl
                  | ok parsed_args =>
                    dsimp only
                    have h3 := hD meta.kwargs st
                    cases hkw : pdDS meta.kwargs st with
                    | mk resk st3 =>
                      rw [hkw] at h3
                      dsimp only at h3
                      rw [h3]
                      cases resk with
                      | error e => rfl
                      | ok parsed_kwargs =>
                        dsimp only
                        cases hf : f parsed_args parsed_kwargs with
                        | error e => rfl
                        | ok v =>
                          dsimp only
                          split
                          · rfl
                          · refine ih _ _ st ?_
                            have ha1 : ('(' :: r1).length ≤ R.length := by
                              rw [← heq]
                              exact dropWhile_length_le isWordChar R
                            have ha2 : (')' :: '}' :: tail).length ≤
                                r1.length := by
                              rw [← heq1]
                              exact dropWhile_length_le isArgChar r1
                            simp only [List.length_cons] at ha1 ha2
                            omega
          · rename_i hx1 hx2
            split
            · rename_i j hj
              refine ih _ _ st ?_
              have hd := List.length_drop j ('{' :: R)
              simp only [List.length_cons] at hd ⊢
              omega
            · rfl
      · rename_i tail heq
        dsimp only
        by_cases hw : List.takeWhile isWordChar R = []
        · rw [if_pos hw]
          split
          · rename_i j hj
            refine ih _ _ st ?_
            have hd := List.length_drop j ('{' :: R)
            simp only [List.length_cons] at hd ⊢
            omega
          · rfl
        · rw [if_neg hw]
          rw [gmvS_eq]
          cases hgv : get_mapping_variable ⟨List.takeWhile isWordChar R⟩ st.1 with
          | error e => rfl
          | ok v =>
            dsimp only
            split
            · rfl
            · refine ih _ _ st ?_
              have ha1 : ('}' :: tail).length ≤ R.length := by
                rw [← heq]
                exact dropWhile_length_le isWordChar R
              simp only [List.length_cons] at ha1
              omega
      · rename_i hx1 hx2
        split
        · rename_i j hj
          refine ih _ _ st ?_
          have hd := List.length_drop j ('{' :: R)
          simp only [List.length_cons] at hd ⊢
          omega
        · rfl
    · rename_i R hne1 hne2
      simp only [List.length_cons] at hlen
      dsimp only
      by_cases hw : List.takeWhile isWordChar R = []
      · rw [if_pos hw]
        split
        · rename_i j hj
          refine ih _ _ st ?_
          have hd := List.length_drop j R
          omega
        · rfl
      · rw [if_neg hw]
        rw [gmvS_eq]
        cases hgv : get_mapping_variable ⟨List.takeWhile isWordChar R⟩ st.1 with
        | error e => rfl
        | ok v =>
          dsimp only
          split
          · rfl
          · refine ih _ _ st ?_
            have h2 := dropWhile_length_le isWordChar R
            omega
    · rename_i u1 c R h1 h2 h3
      simp only [List.length_cons] at hlen
      split
      · rename_i j hj
        refine ih _ _ st ?_
        have hd := List.length_drop j R
        omega
      · rfl

mutual

/-- The state-threaded structural walk hands the state back unchanged
whenever its string resolver does. -/
theorem parse_dataGS_state (pdsS) (hS : ∀ s st, (pdsS s st).2 = st) :
    ∀ (c : Content) (st : VarMap × FuncCtx), (parse_dataGS pdsS c st).2 = st
  | .null, st => rfl
  | .bool b, st => rfl
  | .int n, st => rfl
  | .str s, st => hS (pyStrip s) st
  | .list xs, st => by
    rw [parse_dataGS]
    cases hx : parseDataGLS pdsS xs st with
    | mk res st1 =>
      have h1 : st1 = st := by
        have h2 := parseDataGLS_state pdsS hS xs st
        rw [hx] at h2
        exact h2
      cases res with
      | error e => exact h1
      | ok ys => exact h1
  | .tuple xs, st => by
    rw [parse_dataGS]
    cases hx : parseDataGLS pdsS xs st with
    | mk res st1 =>
      have h1 : st1 = st := by
        have h2 := parseDataGLS_state pdsS hS xs st
        rw [hx] at h2
        exact h2
      cases res with
      | error e => exact h1
      | ok ys => exact h1
  | .setv xs, st => by
    rw [parse_dataGS]
    cases hx : parseDataGLS pdsS xs st with
    | mk res st1 =>
      have h1 : st1 = st := by
        have h2 := parseDataGLS_state pdsS hS xs st
        rw [hx] at h2
        exact h2
      cases res with
      | error e => exact h1
      | ok ys => exact h1
  | .dict kvs, st => by
    rw [parse_dataGS]
    cases hx : parseDataGDS pdsS kvs [] st with
    | mk res st1 =>
      have h1 : st1 = st := by
        have h2 := parseDataGDS_state pdsS hS kvs [] st
        rw [hx] at h2
        exact h2
      cases res with
      | error e => exact h1
      | ok ps => exact h1

/-- Elementwise state preservation. -/
theorem parseDataGLS_state (pdsS) (hS : ∀ s st, (pdsS s st).2 = st) :
    ∀ (xs : List Content) (st : VarMap × FuncCtx),
      (parseDataGLS pdsS xs st).2 = st
  | [], st => rfl
  | x :: xs, st => by
    rw [parseDataGLS]
    cases h1 : parse_dataGS pdsS x st with
    | mk res st1 =>
      have hs1 : st1 = st := by
        have h2 := parse_dataGS_state pdsS hS x st
        rw [h1] at h2
        exact h2
      cases res with
      | error e => exact hs1
      | ok y =>
        dsimp only
        cases h2 : parseDataGLS pdsS xs st1 with
        | mk res2 st2 =>
          have hs2 : st2 = st1 := by
            have h3 := parseDataGLS_state pdsS hS xs st1
            rw [h2] at h3
            exact h3
          cases res2 with
          | error e => exact hs2.trans hs1
          | ok ys => exact hs2.trans hs1

/-- Iteration state preservation for the mapping branch. -/
theorem parseDataGDS_state (pdsS) (hS : ∀ s st, (pdsS s st).2 = st) :
    ∀ (kvs : List (Content × Content)) (acc : List (Content × Content))
      (st : VarMap × FuncCtx), (parseDataGDS pdsS kvs acc st).2 = st
  | [], acc, st => rfl
  | (k, v) :: kvs, acc, st => by
    rw [parseDataGDS]
    cases h1 : parse_dataGS pdsS k st with
    | mk res st1 =>
      have hs1 : st1 = st := by
        have h2 := parse_dataGS_state pdsS hS k st
        rw [h1] at h2
        exact h2
      cases res with
      | error e => exact hs1
      | ok pk =>
        dsimp only
        cases h2 : parse_dataGS pdsS v st1 with
        | mk res2 st2 =>
          have hs2 : st2 = st1 := by
            have h3 := parse_dataGS_state pdsS hS v st1
            rw [h2] at h3
            exact h3
          cases res2 with
          | error e => exact hs2.trans hs1
          | ok pv =>
            dsimp only
            cases h3 : dictInsertC acc pk pv with
            | error e => exact hs2.trans hs1
            | ok acc2 =>
              exact (parseDataGDS_state pdsS hS kvs acc2 st2).trans
                (hs2.trans hs1)

end

/-- Keyword-argument state preservation. -/
theorem parseKwargsS_state (pdsS) (hS : ∀ s st, (pdsS s st).2 = st)
    (kwargs : List (String × Content)) (st : VarMap × FuncCtx) :
    (parseKwargsS pdsS kwargs st).2 = st := by
  rw [parseKwargsS]
  cases h1 : parse_dataGS pdsS
      (.dict (kwargs.map (fun kv => (.str kv.1, kv.2)))) st with
  | mk res st1 =>
    have hs1 : st1 = st := by
      have h2 := parse_dataGS_state pdsS hS
        (.dict (kwargs.map (fun kv => (.str kv.1, kv.2)))) st
      rw [h1] at h2
      exact h2
    cases res with
    | error e => exact hs1
    | ok c => cases c <;> exact hs1

/-- The state-threaded string resolver hands the state back unchanged. -/
theorem parse_stringS_state :
    ∀ (fuel : Nat) (s : String) (st : VarMap × FuncCtx),
      (parse_stringS fuel s st).2 = st
  | 0, s, st => rfl
  | fuel + 1, s, st => by
    rw [parse_stringS]
    cases hf : findDollarIdx s.toList with
    | none => rfl
    | some i =>
      exact psLoopS_state _ _ _
        (fun l st2 => parseDataGLS_state _
          (fun s2 st3 => parse_stringS_state fuel s2 st3) l st2)
        (fun l st2 => parseKwargsS_state _
          (fun s2 st3 => parse_stringS_state fuel s2 st3) l st2)
        _ _ _ st Nat.le.refl

/-- The state-threaded data resolver hands the state back unchanged. -/
theorem parse_dataS_state (fuel : Nat) (c : Content) (st : VarMap × FuncCtx) :
    (parse_dataS fuel c st).2 = st :=
  parse_dataGS_state _ (fun s2 st2 => parse_stringS_state fuel s2 st2) c st

/-- The state-threaded candidate step hands the caller's tables back
unchanged. -/
theorem processNameS_state (fuel : Nat) (parsed : VarMap) (n : String)
    (v : Content) (st : VarMap × FuncCtx) :
    (processNameS fuel parsed n v st).2 = st := by
  rw [processNameS]
  split
  · rfl
  · dsimp only
    split
    · rfl
    · split
      · rfl
      · cases hpd : parse_dataS fuel v (parsed, st.2) with
        | mk res st1 =>
          have hs1 : st1 = (parsed, st.2) := by
            have h2 := parse_dataS_state fuel v (parsed, st.2)
            rw [hpd] at h2
            exact h2
          have hs2 : st1.2 = st.2 := by rw [hs1]
          cases res with
          | error e =>
            cases e <;> (show (st.1, st1.2) = st; rw [hs2])
          | ok pv =>
            show (st.1, st1.2) = st
            rw [hs2]

/-- A state-threaded full pass hands the caller's tables back unchanged. -/
theorem passAuxS_state (fuel : Nat) :
    ∀ (l : List (String × Content)) (parsed : VarMap)
      (st : VarMap × FuncCtx), (passAuxS fuel l parsed st).2 = st
  | [], parsed, st => rfl
  | (n, v) :: rest, parsed, st => by
    rw [passAuxS]
    cases hpn : processNameS fuel parsed n v st with
    | mk res st1 =>
      have hs1 : st1 = st := by
        have h2 := processNameS_state fuel parsed n v st
        rw [hpn] at h2
        exact h2
      cases res with
      | error e => exact hs1
      | ok parsed1 => exact (passAuxS_state fuel rest parsed1 st1).trans hs1

/-- The state-threaded fixed-point loop hands the caller's tables back
unchanged. -/
theorem pvmLoopS_state (fuel : Nat) :
    ∀ (passes : Nat) (parsed : VarMap) (st : VarMap × FuncCtx),
      (pvmLoopS fuel passes parsed st).2 = st
  | 0, parsed, st => rfl
  | passes + 1, parsed, st => by
    rw [pvmLoopS]
    split
    · rfl
    · cases hpa : passAuxS fuel st.1 parsed st with
      | mk res st1 =>
        have hs1 : st1 = st := by
          have h2 := passAuxS_state fuel st.1 parsed st
          rw [hpa] at h2
          exact h2
        cases res with
        | error e => exact hs1
        | ok parsed1 =>
          exact (pvmLoopS_state fuel passes parsed1 st1).trans hs1

/-- C8: the supplied variables mapping and functions mapping are left
unchanged by every resolution call - in the state-threaded reading of
`parse_string`, `parse_data` and `parse_variables_mapping`, where the
caller's tables are explicit state flowing through every translated
statement, each call returns the state it was handed: the engine only
builds new output structures and never writes the caller's tables. -/
theorem claim_C8_no_mutation :
    (∀ (fuel : Nat) (s : String) (st : VarMap × FuncCtx),
      (parse_stringS fuel s st).2 = st) ∧
    (∀ (fuel : Nat) (c : Content) (st : VarMap × FuncCtx),
      (parse_dataS fuel c st).2 = st) ∧
    (∀ (passes fuel : Nat) (st : VarMap × FuncCtx),
      (parse_variables_mappingS passes fuel st).2 = st) :=
  ⟨parse_stringS_state,
   fun fuel c st => parse_dataS_state fuel c st,
   fun passes fuel st => pvmLoopS_state fuel passes [] st⟩

end HR
